import Mathlib

/-! Hakool 3D engine, object lifecycle and resource ownership: a shallow
embedding of `hkCore/src/hkGameObject.cpp` and
`include/Hakool/Core/hkResourceGroup.h`.

Conventions of the embedding.

* A C++ object is identified by a natural number standing for its address. A
  pointer that may be null is an `Option`: `none` is `nullptr`.
* Virtual hooks of components and resources (`create`, `init`, `update`,
  `destroy`) and the `delete` operator are external to the files embedded
  here. Calling one is recorded as an `Event` in a trace, in program order.
* `Logger::Error` is external as well; the messages are collected in a log
  that is kept apart from the trace of hook calls.
* A mutating member function becomes a function from the state before the
  call to a record holding the state after the call and what the call emitted.
-/

namespace hk

/-! ## Utilities -/

/-- Result codes, `hkUtilitiesUtilities.h`, `enum class eRESULT`. -/
inductive eRESULT where
  | kFail
  | kSuccess
  | kObjectAlreadyExists
  | kObjectNotFound
deriving DecidableEq

/-- The member functions this development sees being called on components and
resources, plus the `delete` operator applied to them. -/
inductive Call where
  | create
  | init
  | update
  | destroy
  | delete
deriving DecidableEq

/-- One call on the object at address `target`. -/
structure Event where
  call : Call
  target : Nat
deriving DecidableEq

/-- What can go wrong below the level of the language: a member function is
called through a null pointer, or through a pointer to an object that has
been deleted. -/
inductive Fault where
  | nullDereference
  | danglingDereference
deriving DecidableEq

/-- Lexicographic comparison of two sequences of character codes. -/
def lexLess : List Nat → List Nat → Bool
  | [], [] => false
  | [], _ :: _ => true
  | _ :: _, [] => false
  | a :: as, b :: bs =>
    if a < b then true else if b < a then false else lexLess as bs

/-- The strict order `std::less<K>` that sorts the keys of a `Map<K, V>`. -/
class Less (κ : Type) where
  less : κ → κ → Bool

/-- Enumerators compare by value. -/
instance : Less Nat := ⟨fun a b => decide (a < b)⟩

/-- Strings compare lexicographically, character by character. -/
instance : Less String :=
  ⟨fun a b => lexLess (a.data.map Char.toNat) (b.data.map Char.toNat)⟩

/-- The engine's `Map<K, V>`. Its declaration (`hkUtilsPrerequisites.h`) is not
among the sources; it is used with the interface of `std::map` (`find`, `end`,
`insert(value_type)`, `erase(key)`, `clear`, range-for). It is embedded as the
list of its entries in iteration order. -/
abbrev Map (κ ν : Type) := List (κ × ν)

namespace Map

variable {κ ν : Type}

/-- The value of `m.find(k)->second`, or `none` when `m.find(k) == m.end()`. -/
def find [DecidableEq κ] : Map κ ν → κ → Option ν
  | [], _ => none
  | e :: rest, k => if e.1 = k then some e.2 else find rest k

/-- The map after `m.insert(value_type(k, v))`: nothing changes when `k` is
already a key, otherwise the entry goes in front of the first larger key. -/
def insert [DecidableEq κ] [Less κ] : Map κ ν → κ → ν → Map κ ν
  | [], k, v => [(k, v)]
  | e :: rest, k, v =>
    if e.1 = k then e :: rest
    else if Less.less k e.1 then (k, v) :: e :: rest
    else e :: insert rest k v

/-- The map after `m.erase(k)`. -/
def erase [DecidableEq κ] (m : Map κ ν) (k : κ) : Map κ ν :=
  m.filter (fun e => decide (e.1 ≠ k))

/-- The map after `m.clear()`. -/
def clear (_m : Map κ ν) : Map κ ν := []

end Map

/-! ## Components and game objects -/

/-- The type tag `eCOMPONENT` of a component, by the value of its enumerator.
The enumeration is declared in a header that is not among the sources. -/
abbrev eCOMPONENT := Nat

/-- A `Component` as `GameObject` uses it: its address, the tag `getID()`
returns, and the owner back-reference `_m_pGameObject`. A pointer to a
`GameObject` is represented by the `_m_uuid` of the object pointed to. -/
structure Component where
  addr : Nat
  getID : eCOMPONENT
  _m_pGameObject : Option Nat
deriving DecidableEq

/-- A `GameObject` with the members `hkGameObject.cpp` initialises and uses.
`_m_name` and `_m_hChildren` come from the base class `Node<GameObject>`; the
children are listed in the iteration order of `_m_hChildren`, each one keyed
by its own name. -/
inductive GameObject where
  | mk (_m_name : String) (_m_hChildren : List GameObject)
      (_m_hComponents : Map eCOMPONENT Component)
      (_m_toDestroy : Bool) (_m_isInitialized : Bool)
      (_m_pScene : Option Nat) (_m_uuid : Nat)

namespace GameObject

/-- Name of the node, `Node::getName()`. -/
def getName : GameObject → String
  | mk n _ _ _ _ _ _ => n

/-- Children of the node, in iteration order. -/
def _m_hChildren : GameObject → List GameObject
  | mk _ ch _ _ _ _ _ => ch

/-- Component table of the object. -/
def _m_hComponents : GameObject → Map eCOMPONENT Component
  | mk _ _ cs _ _ _ _ => cs

/-- Pending-destruction marker. -/
def _m_toDestroy : GameObject → Bool
  | mk _ _ _ td _ _ _ => td

/-- Whether `init()` has run. -/
def _m_isInitialized : GameObject → Bool
  | mk _ _ _ _ ini _ _ => ini

/-- Scene back-reference. -/
def _m_pScene : GameObject → Option Nat
  | mk _ _ _ _ _ sc _ => sc

/-- Identity of the object. -/
def _m_uuid : GameObject → Nat
  | mk _ _ _ _ _ _ u => u

/-- Events of one range-for over a component table calling `c` on each entry. -/
def forEachComponent (c : Call) (m : Map eCOMPONENT Component) : List Event :=
  m.map (fun e => Event.mk c e.2.addr)

/-- Outcome of a member function that cannot throw: the object afterwards and
the hook calls made, in order. -/
structure Ran where
  self : GameObject
  trace : List Event

/-- Embedding of `GameObject::init()`. -/
def init (g : GameObject) : Ran :=
  match g with
  | mk n ch cs td ini sc u =>
    if !ini then
      ⟨mk n ch cs td (!ini) sc u,
        forEachComponent Call.create cs ++ forEachComponent Call.init cs⟩
    else
      ⟨mk n ch cs td ini sc u, []⟩

/-- Embedding of `GameObject::update()`. -/
def update (g : GameObject) : Ran :=
  ⟨g, forEachComponent Call.update g._m_hComponents⟩

/-- Embedding of `GameObject::hasComponent`. -/
def hasComponent (g : GameObject) (_id : eCOMPONENT) : Bool :=
  (Map.find g._m_hComponents _id).isSome

/-- Outcome of `addComponent`: the thrown message if the call threw, the
object and the component as they are when the call ends, and the hook calls
made. -/
structure Added where
  thrown : Option String
  self : GameObject
  component : Component
  trace : List Event

/-- Embedding of `GameObject::addComponent(Component* _pComponent)` for a
non-null `_pComponent`. -/
def addComponent (g : GameObject) (_pComponent : Component) : Added :=
  let type := _pComponent.getID
  if g.hasComponent type then
    ⟨some ("GameObject: " ++ g.getName ++ " Component with same type already exists."),
      g, _pComponent, []⟩
  else if _pComponent._m_pGameObject ≠ none then
    ⟨some ("GameObject: " ++ g.getName
        ++ ": Component is already attached to a game object."),
      g, _pComponent, []⟩
  else
    match g with
    | mk n ch cs td ini sc u =>
      let attached : Component := { _pComponent with _m_pGameObject := some u }
      let g' := mk n ch (Map.insert cs type attached) td ini sc u
      if ini then
        ⟨none, g', attached, [Event.mk Call.create attached.addr,
          Event.mk Call.init attached.addr]⟩
      else
        ⟨none, g', attached, []⟩

/-- Tearing down the objects at the given addresses one after the other: each
one gets `destroy` and is then deleted. -/
def teardown (addresses : List Nat) : List Event :=
  addresses.flatMap (fun a => [Event.mk Call.destroy a, Event.mk Call.delete a])

/-- Events of the first loop of `destroy()`: each component is torn down and
then deleted. -/
def destroyComponents (m : Map eCOMPONENT Component) : List Event :=
  m.flatMap (fun e => [Event.mk Call.destroy e.2.addr, Event.mk Call.delete e.2.addr])

mutual
/-- Embedding of `GameObject::destroy()`. -/
def destroy : GameObject → Ran
  | mk n ch cs td ini sc u =>
    let r := destroyChildren ch
    ⟨mk n r.1 (Map.clear cs) td ini sc u, destroyComponents cs ++ r.2⟩
/-- The second loop of `destroy()`, over the children. -/
def destroyChildren : List GameObject → List GameObject × List Event
  | [] => ([], [])
  | c :: rest =>
    let r := destroy c
    let rs := destroyChildren rest
    (r.self :: rs.1, r.trace ++ rs.2)
end

/-- Embedding of `GameObject::detroyComponent`. -/
def detroyComponent (g : GameObject) (_id : eCOMPONENT) : Ran :=
  if !g.hasComponent _id then
    ⟨g, []⟩
  else
    match g, Map.find g._m_hComponents _id with
    | mk n ch cs td ini sc u, some pComponent =>
      ⟨mk n ch (Map.erase cs _id) td ini sc u,
        [Event.mk Call.destroy pComponent.addr, Event.mk Call.delete pComponent.addr]⟩
    | g, none => ⟨g, []⟩

/-- Embedding of `GameObject::onScene()`. -/
def onScene (g : GameObject) : Bool :=
  decide (g._m_pScene ≠ none)

mutual
/-- Embedding of `GameObject::onAdded(GameObject& _parent)`. Of `_parent` the
function reads `_m_pScene` only. The children receive `*this` after its scene
reference has been assigned; the object handed to them lists the children as
they were when the loop started. -/
def onAdded : GameObject → GameObject → GameObject
  | mk n ch cs td ini sc u, _parent =>
    let sc' := if _parent._m_pScene ≠ none then _parent._m_pScene else sc
    mk n (onAddedChildren ch (mk n ch cs td ini sc' u)) cs td ini sc' u
/-- The loop of `onAdded` over the children; `self` is `*this`. -/
def onAddedChildren : List GameObject → GameObject → List GameObject
  | [], _ => []
  | c :: rest, self => onAdded c self :: onAddedChildren rest self
end

mutual
/-- Embedding of `GameObject::onRemoved(GameObject& _parent)`. `_parent` is not
read. The object handed to the children lists the children as they were when
the loop started. -/
def onRemoved : GameObject → GameObject → GameObject
  | mk n ch cs td ini _ u, _parent =>
    mk n (onRemovedChildren ch (mk n ch cs td ini none u)) cs td ini none u
/-- The loop of `onRemoved` over the children; `self` is `*this`. -/
def onRemovedChildren : List GameObject → GameObject → List GameObject
  | [], _ => []
  | c :: rest, self => onRemoved c self :: onRemovedChildren rest self
end

mutual
/-- The object and all its descendants, parents before children. -/
def subtree : GameObject → List GameObject
  | mk n ch cs td ini sc u => mk n ch cs td ini sc u :: subtreeChildren ch
/-- The nodes of the subtrees of a list of siblings. -/
def subtreeChildren : List GameObject → List GameObject
  | [] => []
  | c :: rest => subtree c ++ subtreeChildren rest
end

/-- Addresses of the components attached to the object itself. -/
def ownComponents (g : GameObject) : List Nat :=
  g._m_hComponents.map (fun e => e.2.addr)

mutual
/-- Addresses of the components attached to proper descendants of the object. -/
def descendantComponents : GameObject → List Nat
  | mk _ ch _ _ _ _ _ => componentsOfChildren ch
/-- Addresses of the components attached anywhere in the subtrees of a list of
siblings. -/
def componentsOfChildren : List GameObject → List Nat
  | [] => []
  | c :: rest =>
    (c._m_hComponents.map (fun e => e.2.addr) ++ descendantComponents c)
      ++ componentsOfChildren rest
end

/-- Addresses of the components attached anywhere in the subtree of the object. -/
def subtreeComponents (g : GameObject) : List Nat :=
  g.ownComponents ++ g.descendantComponents

/-- Modelled from the spec: `Node::getChild(name)` of the tree primitive, which
is not among the sources. The spec gives it as "child-by-name lookup" with a
"null-sentinel representation for not found"; the sentinel node, the one
`IsNull` recognises, is `none`. -/
def getChild (g : GameObject) (name : String) : Option GameObject :=
  g._m_hChildren.find? (fun c => decide (c.getName = name))

/-- Outcome of `getGameObjectByPath`: the node returned, `none` standing for
the sentinel, and the messages logged. -/
structure Found where
  result : Option GameObject
  log : List String

/-- The loop of `getGameObjectByPath` over the queue `levels`, with `pCurrent`
the node reached so far; `self` is `*this` and `_path` the argument, both used
in the message only. -/
def followLevels (self : GameObject) (_path : String) :
    GameObject → List String → Found
  | pCurrent, [] => ⟨some pCurrent, []⟩
  | pCurrent, level :: levels =>
    match pCurrent.getChild level with
    | none =>
      ⟨none, ["| GameObject : " ++ self.getName ++ " | Child not found. Path: " ++ _path]⟩
    | some child => followLevels self _path child levels

/-- Embedding of `GameObject::getGameObjectByPath(String _path)`. The function
`Split`, which is not among the sources, is a parameter. -/
def getGameObjectByPath (Split : String → String → List String) (g : GameObject)
    (_path : String) : Found :=
  followLevels g _path g (Split _path "/")

/-- In the words of the specification: each segment in turn names a child of
the node reached so far, and `target` is the node reached after the last one. -/
inductive Reaches : GameObject → List String → GameObject → Prop where
  | here (g : GameObject) : Reaches g [] g
  | step {g child target : GameObject} {segment : String} {rest : List String} :
      g.getChild segment = some child → Reaches child rest target →
      Reaches g (segment :: rest) target

end GameObject

/-! ## Resource groups -/

/-- A `ResourceGroup<C>`: the table `_m_hResources`. The table is private and
`add` is the only member that inserts, after rejecting a null pointer, so the
stored pointers are addresses. -/
structure ResourceGroup where
  _m_hResources : Map String Nat
deriving DecidableEq

namespace ResourceGroup

/-- Outcome of a member function of `ResourceGroup`: what it returned, the
group afterwards, the calls made on resources and the messages logged. -/
structure Outcome (ρ : Type) where
  result : ρ
  self : ResourceGroup
  trace : List Event
  log : List String

/-- Embedding of `ResourceGroup<C>::has`. -/
def has (g : ResourceGroup) (_key : String) : Bool :=
  (Map.find g._m_hResources _key).isSome

/-- Embedding of `ResourceGroup<C>::add`. -/
def add (g : ResourceGroup) (_key : String) (_pAsset : Option Nat) : Outcome eRESULT :=
  match _pAsset with
  | none => ⟨eRESULT.kFail, g, [], ["| ResourceGroup | Invalid asset pointer."]⟩
  | some pResource =>
    if g.has _key then
      ⟨eRESULT.kObjectAlreadyExists, g,
        [Event.mk Call.destroy pResource, Event.mk Call.delete pResource],
        ["| ResourceGroup | Asset with key : " ++ _key
          ++ " already exists. Asset will be destroyed"]⟩
    else
      ⟨eRESULT.kSuccess, ⟨Map.insert g._m_hResources _key pResource⟩, [], []⟩

/-- Embedding of `ResourceGroup<C>::get`. -/
def get (g : ResourceGroup) (_key : String) : Outcome (Option Nat) :=
  if !g.has _key then
    ⟨none, g, [], ["| ResourceGroup | Asset with key : " ++ _key ++ " was not found."]⟩
  else
    ⟨Map.find g._m_hResources _key, g, [], []⟩

/-- Embedding of `ResourceGroup<C>::removeAndDestroy`. When the function calls
`destroy` through a null pointer the result is the fault, and the rest of the
outcome is what had happened up to that call. -/
def removeAndDestroy (g : ResourceGroup) (_key : String) :
    Outcome (Except Fault eRESULT) :=
  let got := g.get _key
  let pResource := got.result
  let erased : ResourceGroup := ⟨Map.erase got.self._m_hResources _key⟩
  if pResource ≠ none then
    ⟨Except.ok eRESULT.kObjectNotFound, erased, got.trace, got.log⟩
  else
    match pResource with
    | none => ⟨Except.error Fault.nullDereference, erased, got.trace, got.log⟩
    | some p =>
      ⟨Except.ok eRESULT.kSuccess, erased,
        got.trace ++ [Event.mk Call.destroy p, Event.mk Call.delete p], got.log⟩

/-- The loop of `clear()` over the entries still to visit. `deleted` lists the
addresses of the assets deleted so far and `trace` the calls made so far. The
loop ends with the fault when it comes to an entry whose asset has been
deleted: `destroy` is then called through a dangling pointer. -/
def clearLoop : Map String Nat → List Nat → List Event → Option Fault × List Event
  | [], _, trace => (none, trace)
  | e :: rest, deleted, trace =>
    if e.2 ∈ deleted then (some Fault.danglingDereference, trace)
    else
      clearLoop rest (e.2 :: deleted)
        (trace ++ [Event.mk Call.destroy e.2, Event.mk Call.delete e.2])

/-- Embedding of `ResourceGroup<C>::clear`. The group keeps no record of which
assets are alive, so `deleted` gives the addresses of the assets that have
been deleted before the call. When the loop ends with a fault the result is
the fault, `_m_hResources.clear()` has not been reached, and the trace is what
had been called up to the fault. -/
def clear (g : ResourceGroup) (deleted : List Nat) : Outcome (Except Fault Unit) :=
  match clearLoop g._m_hResources deleted [] with
  | (none, trace) => ⟨Except.ok (), ⟨Map.clear g._m_hResources⟩, trace, []⟩
  | (some fault, trace) => ⟨Except.error fault, g, trace, []⟩

end ResourceGroup

/-! ## Runs of operations on one object -/

/-- Embedding of the constructor `GameObject::GameObject(const String& _name)`;
`uuid` is what `xg::newGuid()` returns. The base `Node<GameObject>(_name)` is
not among the sources; a new node has no children. -/
def GameObject.named (_name : String) (uuid : Nat) : GameObject :=
  GameObject.mk _name [] [] false false none uuid

/-- A call of one of the member functions of a `GameObject` that deal with its
components. `addComponent p type` passes the pointer to the component at
address `p`, whose `getID()` is `type`. -/
inductive Operation where
  | addComponent (p : Nat) (type : eCOMPONENT)
  | init
  | update
  | detroyComponent (_id : eCOMPONENT)
  | destroy

/-- A `GameObject` together with what the run has done to the components handed
to it: `owned` lists the addresses of the components whose `_m_pGameObject` has
been assigned, `deleted` those of the components that have been deleted, and
`trace` holds all calls made so far. The components are unowned at the start,
so the owner field of a component is null unless listed in `owned`. -/
structure World where
  object : GameObject
  owned : List Nat
  deleted : List Nat
  trace : List Event

namespace World

/-- The state at the start: a newly constructed object, no call made yet. -/
def fresh (_name : String) (uuid : Nat) : World :=
  ⟨GameObject.named _name uuid, [], [], []⟩

/-- The component at address `p` as it is in memory at this point of the run. -/
def pointee (w : World) (p : Nat) (type : eCOMPONENT) : Component :=
  ⟨p, type, if p ∈ w.owned then some w.object._m_uuid else none⟩

/-- Addresses that a trace has applied `delete` to. -/
def deletedBy (trace : List Event) : List Nat :=
  (trace.filter (fun e => decide (e.call = Call.delete))).map Event.target

/-- The world after a member function that does not throw has run. -/
def after (w : World) (r : GameObject.Ran) : World :=
  ⟨r.self, w.owned, w.deleted ++ deletedBy r.trace, w.trace ++ r.trace⟩

/-- One operation. The result is `none` when the call has no defined
behaviour: `addComponent` reads through a pointer to a deleted component. A
throw of `addComponent` is caught by the caller and the run goes on. -/
def step (w : World) : Operation → Option World
  | Operation.addComponent p type =>
    if p ∈ w.deleted then none
    else
      some ⟨(w.object.addComponent (w.pointee p type)).self,
        if (w.object.addComponent (w.pointee p type)).component._m_pGameObject = none
          then w.owned else p :: w.owned,
        w.deleted,
        w.trace ++ (w.object.addComponent (w.pointee p type)).trace⟩
  | Operation.init => some (w.after w.object.init)
  | Operation.update => some (w.after w.object.update)
  | Operation.detroyComponent _id => some (w.after (w.object.detroyComponent _id))
  | Operation.destroy => some (w.after w.object.destroy)

/-- A sequence of operations, carried out until it ends or reaches a call
without defined behaviour. -/
def run : World → List Operation → World
  | w, [] => w
  | w, op :: rest =>
    match w.step op with
    | none => w
    | some w' => run w' rest

/-- Whether the operation, if it is `update()`, finds the object initialised. -/
def timely (w : World) : Operation → Bool
  | Operation.update => w.object._m_isInitialized
  | _ => true

/-- Whether every `update()` of the sequence is called while the object is
initialised. -/
def updatesWhenInitialized : World → List Operation → Bool
  | _, [] => true
  | w, op :: rest =>
    w.timely op
    && (match w.step op with
      | none => true
      | some w' => updatesWhenInitialized w' rest)

end World

/-- The lifecycle phases of a component once it is attached, as the
specification lists them. -/
inductive Phase where
  | uncreated
  | created
  | initialized
  | destroyed
deriving DecidableEq

/-- The phase after one more call on the component, or `none` when the call
breaks the lifecycle: `create` is for an uncreated component, `init` for a
created one, `destroy` ends the lifecycle, `delete` changes nothing. With
`strict` set, `update` is for an initialised component only; otherwise it is
let through. -/
def Phase.next (strict : Bool) : Phase → Call → Option Phase
  | Phase.uncreated, Call.create => some Phase.created
  | _, Call.create => none
  | Phase.created, Call.init => some Phase.initialized
  | _, Call.init => none
  | _, Call.destroy => some Phase.destroyed
  | p, Call.delete => some p
  | p, Call.update =>
    if strict then (if p = Phase.initialized then some p else none) else some p

/-- The phase the component at address `a` is in after the calls of `trace`,
starting in phase `start`; `none` once a call has broken the lifecycle. -/
def phaseAfter (strict : Bool) (a : Nat) (start : Option Phase) (trace : List Event) :
    Option Phase :=
  trace.foldl
    (fun phase e => if e.target = a then phase.bind (fun p => Phase.next strict p e.call)
      else phase)
    start

/-- What holds of a world along a run that starts with a new object: the
object has no children, no component is attached twice, the attached
components are owned, a component that is not owned is still uncreated, an
attached one is uncreated or initialised as the object is, and no lifecycle is
broken. With `strict` set the lifecycle also holds `update` to initialised
components. -/
structure World.Sound (strict : Bool) (w : World) : Prop where
  childless : w.object._m_hChildren = []
  distinct : w.object.ownComponents.Nodup
  attached_owned : ∀ a ∈ w.object.ownComponents, a ∈ w.owned
  unowned : ∀ a, a ∉ w.owned →
    phaseAfter strict a (some Phase.uncreated) w.trace = some Phase.uncreated
  attached : ∀ a ∈ w.object.ownComponents,
    phaseAfter strict a (some Phase.uncreated) w.trace
      = some (if w.object._m_isInitialized = true then Phase.initialized
          else Phase.uncreated)
  unbroken : ∀ a, ∃ q, phaseAfter strict a (some Phase.uncreated) w.trace = some q

/-! ## Sample states used as witnesses -/

/-- An object that has not been initialised, with two components attached. -/
def sampleObject : GameObject :=
  GameObject.mk "player" [] [(0, ⟨100, 0, some 1⟩), (1, ⟨101, 1, some 1⟩)]
    false false none 1

/-- The same object after its bring-up. -/
def sampleInitialized : GameObject :=
  GameObject.mk "player" [] [(0, ⟨100, 0, some 1⟩), (1, ⟨101, 1, some 1⟩)]
    false true none 1

/-- A component of a type the sample objects do not have, owned by nobody. -/
def sampleFresh : Component := ⟨102, 2, none⟩

/-- Another instance of the type tag `0`, owned by nobody. -/
def sampleDuplicate : Component := ⟨103, 0, none⟩

/-- A subtree of three levels, `root`, `child` and `grandchild`, none of them
on a scene, with components at the addresses 200 to 203. -/
def sampleSubtree : GameObject :=
  GameObject.mk "root"
    [GameObject.mk "child"
      [GameObject.mk "grandchild" [] [(0, ⟨203, 0, some 12⟩)] false false none 12]
      [(0, ⟨202, 0, some 11⟩)] false false none 11]
    [(0, ⟨200, 0, some 10⟩), (1, ⟨201, 1, some 10⟩)] false false none 10

/-- The same subtree while it is attached under the scene at address 900. -/
def sampleSubtreeOnScene : GameObject :=
  GameObject.mk "root"
    [GameObject.mk "child"
      [GameObject.mk "grandchild" [] [(0, ⟨203, 0, some 12⟩)] false false (some 900) 12]
      [(0, ⟨202, 0, some 11⟩)] false false (some 900) 11]
    [(0, ⟨200, 0, some 10⟩), (1, ⟨201, 1, some 10⟩)] false false (some 900) 10

/-- An object that is on the scene at address 900. -/
def sampleSceneParent : GameObject :=
  GameObject.mk "world" [] [] false false (some 900) 2

/-- An object that is on no scene. -/
def sampleLooseParent : GameObject :=
  GameObject.mk "loose" [] [] false false none 3

/-- A childless object that still carries the scene reference 900. -/
def sampleStale : GameObject :=
  GameObject.mk "stale" [] [] false false (some 900) 20

/-- An object on no scene whose only child still carries the scene reference
900. -/
def sampleStaleChild : GameObject :=
  GameObject.mk "host" [sampleStale] [] false false none 21

/-- Cuts a list of characters at every occurrence of `sep`; `piece` holds the
characters of the current piece, last one first. -/
def cutAt (sep : Char) : List Char → List Char → List String
  | piece, [] => [String.mk piece.reverse]
  | piece, c :: rest =>
    if c = sep then String.mk piece.reverse :: cutAt sep [] rest
    else cutAt sep (c :: piece) rest

/-- A path splitter for the witnesses: the pieces of `path` between the
occurrences of a one-character separator. -/
def sampleSplit (path separator : String) : List String :=
  match separator.data with
  | [sep] => cutAt sep [] path.data
  | _ => [path]

/-- A resource group that stores the asset at address 7 under two keys, as
`add("a", p)` followed by `add("b", p)` leaves it. -/
def sampleShared : ResourceGroup :=
  ((ResourceGroup.add ⟨[]⟩ "a" (some 7)).self.add "b" (some 7)).self

/-- A run that attaches two components, brings the object up, updates it,
attaches a third component, removes the first one and destroys the object. -/
def sampleRun : List Operation :=
  [Operation.addComponent 100 0, Operation.addComponent 101 1, Operation.init,
    Operation.update, Operation.addComponent 102 2, Operation.detroyComponent 0,
    Operation.destroy]

/-- A run that attaches a component and updates the object without bringing
it up. -/
def sampleEarlyUpdate : List Operation :=
  [Operation.addComponent 100 0, Operation.update]

/-- A resource group holding one mesh, at address 7, under the key `mesh1`. -/
def sampleGroup : ResourceGroup := ⟨[("mesh1", 7)]⟩

/-! ## Bring-up and attachment of components -/

/-- C1: on an object that is not initialised, `init()` calls `create` on every
attached component in map order, then `init` on every attached component in
the same order, so all `create` calls come before all `init` calls, and the
object is initialised afterwards. -/
theorem init_two_phase (g : GameObject) (h : g._m_isInitialized = false) :
    g.init.trace
        = g._m_hComponents.map (fun e => Event.mk Call.create e.2.addr)
          ++ g._m_hComponents.map (fun e => Event.mk Call.init e.2.addr)
      ∧ (∃ first second, g.init.trace = first ++ second
          ∧ first.map Event.target = g.ownComponents
          ∧ second.map Event.target = g.ownComponents
          ∧ (∀ e ∈ first, e.call = Call.create)
          ∧ (∀ e ∈ second, e.call = Call.init))
      ∧ g.init.self._m_isInitialized = true := by
  cases g with
  | mk n ch cs td ini sc u =>
    simp only [GameObject._m_isInitialized] at h
    subst h
    refine ⟨rfl, ⟨_, _, rfl, ?_, ?_, ?_, ?_⟩, rfl⟩
    · simp [GameObject.forEachComponent, GameObject.ownComponents,
        GameObject._m_hComponents]
    · simp [GameObject.forEachComponent, GameObject.ownComponents,
        GameObject._m_hComponents]
    · intro e he
      simp only [GameObject.forEachComponent, List.mem_map] at he
      obtain ⟨x, _, rfl⟩ := he
      rfl
    · intro e he
      simp only [GameObject.forEachComponent, List.mem_map] at he
      obtain ⟨x, _, rfl⟩ := he
      rfl

/-- Witness of C1: an object with the two components at addresses 100 and 101. -/
theorem init_two_phase_witness :
    sampleObject._m_isInitialized = false
      ∧ sampleObject.init.trace
          = [⟨Call.create, 100⟩, ⟨Call.create, 101⟩, ⟨Call.init, 100⟩, ⟨Call.init, 101⟩]
      ∧ sampleObject.init.self._m_isInitialized = true :=
  ⟨rfl, (init_two_phase sampleObject rfl).1, (init_two_phase sampleObject rfl).2.2⟩

/-- C2: `addComponent(c)` throws exactly when a component with the type tag of
`c` is attached already or `c` has an owner; and when it throws, the object
and `c` are as before, no hook has been called, and the component that was
attached under that type tag still is. -/
theorem addComponent_throws_iff (g : GameObject) (c : Component) :
    ((g.addComponent c).thrown ≠ none
        ↔ (g.hasComponent c.getID = true ∨ c._m_pGameObject ≠ none))
      ∧ ((g.addComponent c).thrown ≠ none →
          (g.addComponent c).self = g
            ∧ (g.addComponent c).component = c
            ∧ (g.addComponent c).trace = []
            ∧ ∀ original, Map.find g._m_hComponents c.getID = some original →
                Map.find (g.addComponent c).self._m_hComponents c.getID
                  = some original) := by
  cases g with
  | mk n ch cs td ini sc u =>
    by_cases h1 : (GameObject.mk n ch cs td ini sc u).hasComponent c.getID = true
    · simp [GameObject.addComponent, h1]
    · by_cases h2 : c._m_pGameObject = none
      · cases ini <;> simp [GameObject.addComponent, h1, h2]
      · simp [GameObject.addComponent, h1, h2]

/-- Witness of C2: a second component of type tag `0` is refused and the first
one stays attached. -/
theorem addComponent_throws_iff_witness :
    (sampleObject.addComponent sampleDuplicate).thrown ≠ none
      ∧ (sampleObject.addComponent sampleDuplicate).self = sampleObject
      ∧ (sampleObject.addComponent sampleDuplicate).component = sampleDuplicate
      ∧ (sampleObject.addComponent sampleDuplicate).trace = []
      ∧ Map.find (sampleObject.addComponent sampleDuplicate).self._m_hComponents 0
          = some ⟨100, 0, some 1⟩ :=
  have thrown : (sampleObject.addComponent sampleDuplicate).thrown ≠ none := by decide
  have kept := (addComponent_throws_iff sampleObject sampleDuplicate).2 thrown
  ⟨thrown, kept.1, kept.2.1, kept.2.2.1, kept.2.2.2 ⟨100, 0, some 1⟩ rfl⟩

/-- C3: when `addComponent(c)` does not throw, an initialised object calls
`create` on `c` once and then `init` on `c` once and calls nothing else, and
an object that is not initialised calls no hook. -/
theorem addComponent_catch_up (g : GameObject) (c : Component)
    (accepted : (g.addComponent c).thrown = none) :
    (g._m_isInitialized = true →
        (g.addComponent c).trace = [⟨Call.create, c.addr⟩, ⟨Call.init, c.addr⟩])
      ∧ (g._m_isInitialized = false → (g.addComponent c).trace = []) := by
  cases g with
  | mk n ch cs td ini sc u =>
    by_cases h1 : (GameObject.mk n ch cs td ini sc u).hasComponent c.getID = true
    · simp [GameObject.addComponent, h1] at accepted
    · by_cases h2 : c._m_pGameObject = none
      · cases ini <;>
          simp [GameObject.addComponent, h1, h2, GameObject._m_isInitialized]
      · simp [GameObject.addComponent, h1, h2] at accepted

/-- Witness of C3: a fresh component attached to the initialised sample object
and to the one that is not initialised. -/
theorem addComponent_catch_up_witness :
    (sampleInitialized.addComponent sampleFresh).thrown = none
      ∧ (sampleInitialized.addComponent sampleFresh).trace
          = [⟨Call.create, 102⟩, ⟨Call.init, 102⟩]
      ∧ (sampleObject.addComponent sampleFresh).trace = [] :=
  ⟨rfl, (addComponent_catch_up sampleInitialized sampleFresh rfl).1 rfl,
    (addComponent_catch_up sampleObject sampleFresh rfl).2 rfl⟩

/-! ## Resource groups -/

/-- What `get` returns is what `find` finds in the table. -/
theorem ResourceGroup.get_result (g : ResourceGroup) (key : String) :
    (g.get key).result = Map.find g._m_hResources key := by
  unfold ResourceGroup.get ResourceGroup.has
  cases h : Map.find g._m_hResources key <;> simp

/-- C4, as stated, fails when the incoming asset is the one the group stores:
`add("mesh1", p)` on a group that maps `mesh1` to `p` destroys `p` and reports
`kObjectAlreadyExists`, and `get("mesh1")` still returns `p`. -/
theorem add_existing_key_counterexample :
    sampleGroup.has "mesh1" = true
      ∧ (sampleGroup.add "mesh1" (some 7)).result = eRESULT.kObjectAlreadyExists
      ∧ (sampleGroup.add "mesh1" (some 7)).trace
          = [⟨Call.destroy, 7⟩, ⟨Call.delete, 7⟩]
      ∧ ((sampleGroup.add "mesh1" (some 7)).self.get "mesh1").result = some 7
      ∧ ¬ ∀ key, ((sampleGroup.add "mesh1" (some 7)).self.get key).result ≠ some 7 := by
  refine ⟨by decide, by decide, by decide, by decide, ?_⟩
  intro h
  exact h "mesh1" (by decide)

/-- C4, amended: when `k` is present and the incoming asset is not null,
`add(k, asset)` reports `kObjectAlreadyExists`, leaves the group as it was
(every key maps as before), and destroys the incoming asset exactly once; the
asset cannot be retrieved from the group afterwards provided the group did
not store it before the call. -/
theorem add_existing_key (g : ResourceGroup) (k : String) (asset : Nat)
    (present : g.has k = true) :
    (g.add k (some asset)).result = eRESULT.kObjectAlreadyExists
      ∧ (g.add k (some asset)).self = g
      ∧ (∀ key, ((g.add k (some asset)).self.get key).result = (g.get key).result)
      ∧ (g.add k (some asset)).trace = [⟨Call.destroy, asset⟩, ⟨Call.delete, asset⟩]
      ∧ (g.add k (some asset)).trace.count ⟨Call.destroy, asset⟩ = 1
      ∧ ((∀ key, (g.get key).result ≠ some asset) →
          ∀ key, ((g.add k (some asset)).self.get key).result ≠ some asset) := by
  have same : (g.add k (some asset)).self = g := by
    simp [ResourceGroup.add, present]
  refine ⟨by simp [ResourceGroup.add, present], same, ?_,
    by simp [ResourceGroup.add, present], ?_, ?_⟩
  · intro key
    rw [same]
  · simp [ResourceGroup.add, present]
  · intro fresh key
    rw [same]
    exact fresh key

/-- Witness of C4: `add("mesh1", 7)` on the empty group, then
`add("mesh1", 8)`. -/
theorem add_existing_key_witness :
    ((ResourceGroup.mk []).add "mesh1" (some 7)).self.has "mesh1" = true
      ∧ (((ResourceGroup.mk []).add "mesh1" (some 7)).self.add "mesh1" (some 8)).result
          = eRESULT.kObjectAlreadyExists
      ∧ ((((ResourceGroup.mk []).add "mesh1" (some 7)).self.add "mesh1" (some 8)).self.get
            "mesh1").result = some 7
      ∧ (((ResourceGroup.mk []).add "mesh1" (some 7)).self.add "mesh1" (some 8)).trace
          = [⟨Call.destroy, 8⟩, ⟨Call.delete, 8⟩]
      ∧ ∀ key, ((((ResourceGroup.mk []).add "mesh1" (some 7)).self.add "mesh1"
            (some 8)).self.get key).result ≠ some 8 :=
  have present : ((ResourceGroup.mk []).add "mesh1" (some 7)).self.has "mesh1" = true := by
    decide
  have fresh : ∀ key,
      ((((ResourceGroup.mk []).add "mesh1" (some 7)).self).get key).result ≠ some 8 := by
    intro key
    rw [ResourceGroup.get_result]
    show Map.find [("mesh1", 7)] key ≠ some 8
    unfold Map.find
    split <;> simp [Map.find]
  have h := add_existing_key ((ResourceGroup.mk []).add "mesh1" (some 7)).self "mesh1" 8
    present
  ⟨present, h.1, by decide, h.2.2.2.1, h.2.2.2.2.2 fresh⟩

/-- On a present key `removeAndDestroy` erases the entry, calls nothing on the
asset and reports `kObjectNotFound`. -/
theorem ResourceGroup.removeAndDestroy_of_has (g : ResourceGroup) (k : String)
    (present : g.has k = true) :
    (g.removeAndDestroy k).result = Except.ok eRESULT.kObjectNotFound
      ∧ (g.removeAndDestroy k).trace = []
      ∧ (g.removeAndDestroy k).self = ⟨Map.erase g._m_hResources k⟩ := by
  unfold ResourceGroup.removeAndDestroy ResourceGroup.get
  unfold ResourceGroup.has at present ⊢
  cases h : Map.find g._m_hResources k with
  | none => simp [h] at present
  | some p => simp

/-- On an absent key `removeAndDestroy` reaches the call of `destroy` with a
null pointer. -/
theorem ResourceGroup.removeAndDestroy_of_not_has (g : ResourceGroup) (k : String)
    (absent : g.has k = false) :
    (g.removeAndDestroy k).result = Except.error Fault.nullDereference := by
  unfold ResourceGroup.removeAndDestroy ResourceGroup.get
  simp [absent]

/-- C5 fails on the code: with `mesh1` present, `removeAndDestroy("mesh1")`
erases the entry, makes no call on the asset at all and reports
`kObjectNotFound`. -/
theorem removeAndDestroy_present_reports_not_found :
    sampleGroup.has "mesh1" = true
      ∧ (sampleGroup.removeAndDestroy "mesh1").result = Except.ok eRESULT.kObjectNotFound
      ∧ (sampleGroup.removeAndDestroy "mesh1").trace = []
      ∧ (sampleGroup.removeAndDestroy "mesh1").self = ⟨[]⟩ := by
  refine ⟨by decide, rfl, rfl, rfl⟩

/-- C6 fails on the code: with `mesh2` absent, `removeAndDestroy("mesh2")` does
not return `kObjectNotFound`; it goes on to call `destroy` through the null
pointer that `get` returned. -/
theorem removeAndDestroy_absent_dereferences_null :
    sampleGroup.has "mesh2" = false
      ∧ (sampleGroup.get "mesh2").result = none
      ∧ (sampleGroup.removeAndDestroy "mesh2").result = Except.error Fault.nullDereference
      ∧ (sampleGroup.removeAndDestroy "mesh2").result ≠ Except.ok eRESULT.kObjectNotFound := by
  refine ⟨by decide, by decide, rfl, ?_⟩
  intro h
  cases h

/-! ## Teardown of a subtree -/

namespace GameObject

/-- The first loop of `destroy()` tears down the own components in map order. -/
theorem destroyComponents_eq (m : Map eCOMPONENT Component) :
    destroyComponents m = teardown (m.map (fun e => e.2.addr)) := by
  induction m with
  | nil => rfl
  | cons e rest ih =>
    simp only [destroyComponents, teardown, List.flatMap_cons, List.map_cons] at ih ⊢
    rw [ih]

/-- Tearing down two lists in a row. -/
theorem teardown_append (xs ys : List Nat) :
    teardown (xs ++ ys) = teardown xs ++ teardown ys := by
  simp [teardown, List.flatMap_append]

/-- Number of `destroy` calls an address receives in a teardown. -/
theorem count_destroy_teardown (a : Nat) (xs : List Nat) :
    (teardown xs).count ⟨Call.destroy, a⟩ = xs.count a := by
  induction xs with
  | nil => rfl
  | cons x rest ih =>
    have step : teardown (x :: rest)
        = ⟨Call.destroy, x⟩ :: ⟨Call.delete, x⟩ :: teardown rest := rfl
    rw [step, List.count_cons, List.count_cons, ih, List.count_cons]
    by_cases hx : x = a
    · subst hx
      simp
    · simp [hx]

mutual
/-- The calls `destroy()` makes: the teardown of the own components followed by
the teardown of the components of the descendants. -/
theorem destroy_trace (g : GameObject) :
    g.destroy.trace = teardown g.ownComponents ++ teardown g.descendantComponents :=
  match g with
  | mk n ch cs td ini sc u => by
    simp only [destroy, ownComponents, descendantComponents, _m_hComponents]
    rw [destroyComponents_eq, destroyChildren_trace ch]
/-- The calls of the loop over the children. -/
theorem destroyChildren_trace (ch : List GameObject) :
    (destroyChildren ch).2 = teardown (componentsOfChildren ch) :=
  match ch with
  | [] => rfl
  | c :: rest => by
    simp only [destroyChildren, componentsOfChildren]
    rw [destroy_trace c, destroyChildren_trace rest, teardown_append, teardown_append]
    rfl
end

/-- The loop over the children visits them in order. -/
theorem destroyChildren_eq (ch : List GameObject) :
    destroyChildren ch
      = (ch.map (fun c => c.destroy.self), ch.flatMap (fun c => c.destroy.trace)) := by
  induction ch with
  | nil => rfl
  | cons c rest ih =>
    simp only [destroyChildren, ih, List.map_cons, List.flatMap_cons]

/-- The calls of `destroy()`, loop by loop. -/
theorem destroy_trace_loops (g : GameObject) :
    g.destroy.trace
      = destroyComponents g._m_hComponents
        ++ g._m_hChildren.flatMap (fun c => c.destroy.trace) := by
  cases g with
  | mk n ch cs td ini sc u =>
    simp only [destroy, destroyChildren_eq, _m_hComponents, _m_hChildren]

mutual
/-- After `destroy()` no node of the subtree has a component left. -/
theorem destroy_components_empty (g : GameObject) :
    ∀ node ∈ g.destroy.self.subtree, node._m_hComponents = [] :=
  match g with
  | mk n ch cs td ini sc u => by
    intro node hnode
    simp only [destroy, subtree, List.mem_cons] at hnode
    rcases hnode with rfl | hnode
    · rfl
    · exact destroyChildren_components_empty ch node hnode
/-- The same for the subtrees of a list of siblings. -/
theorem destroyChildren_components_empty (ch : List GameObject) :
    ∀ node ∈ subtreeChildren (destroyChildren ch).1, node._m_hComponents = [] :=
  match ch with
  | [] => by
    intro node hnode
    simp [destroyChildren, subtreeChildren] at hnode
  | c :: rest => by
    intro node hnode
    simp only [destroyChildren, subtreeChildren, List.mem_append] at hnode
    rcases hnode with hnode | hnode
    · exact destroy_components_empty c node hnode
    · exact destroyChildren_components_empty rest node hnode
end

mutual
/-- The nodes of the subtree are the same objects after `destroy()`. -/
theorem destroy_subtree_uuid (g : GameObject) :
    g.destroy.self.subtree.map _m_uuid = g.subtree.map _m_uuid :=
  match g with
  | mk n ch cs td ini sc u => by
    simp only [destroy, subtree, List.map_cons, _m_uuid]
    rw [destroyChildren_subtree_uuid ch]
/-- The same for the subtrees of a list of siblings. -/
theorem destroyChildren_subtree_uuid (ch : List GameObject) :
    (subtreeChildren (destroyChildren ch).1).map _m_uuid
      = (subtreeChildren ch).map _m_uuid :=
  match ch with
  | [] => rfl
  | c :: rest => by
    simp only [destroyChildren, subtreeChildren, List.map_append]
    rw [destroy_subtree_uuid c, destroyChildren_subtree_uuid rest]
end

/-! ## Scene membership -/

/-- The scene reference of the object itself after `onAdded`. -/
theorem onAdded_scene (g parent : GameObject) :
    (g.onAdded parent)._m_pScene
      = if parent._m_pScene ≠ none then parent._m_pScene else g._m_pScene := by
  cases g with
  | mk n ch cs td ini sc u => simp only [onAdded, _m_pScene]

/-- The children after `onAdded`: each one has received `onAdded(*this)`. -/
theorem onAdded_children (g parent : GameObject) :
    ∃ self : GameObject, self._m_pScene = (g.onAdded parent)._m_pScene
      ∧ (g.onAdded parent)._m_hChildren = onAddedChildren g._m_hChildren self := by
  cases g with
  | mk n ch cs td ini sc u =>
    refine ⟨mk n ch cs td ini
      (if parent._m_pScene ≠ none then parent._m_pScene else sc) u, ?_, ?_⟩
    · simp only [onAdded, _m_pScene]
    · simp only [onAdded, _m_hChildren]

/-- The loop of `onAdded` visits the children in order. -/
theorem onAddedChildren_eq (ch : List GameObject) (self : GameObject) :
    onAddedChildren ch self = ch.map (fun c => c.onAdded self) := by
  induction ch with
  | nil => rfl
  | cons c rest ih => simp only [onAddedChildren, ih, List.map_cons]

mutual
/-- With the parent on a scene, `onAdded` gives that scene to every node. -/
theorem onAdded_on_scene (g parent : GameObject) (scene : Nat)
    (h : parent._m_pScene = some scene) :
    ∀ node ∈ (g.onAdded parent).subtree, node._m_pScene = some scene :=
  match g with
  | mk n ch cs td ini sc u => by
    intro node hnode
    simp only [onAdded, subtree, List.mem_cons, h] at hnode
    rcases hnode with rfl | hnode
    · simp [_m_pScene]
    · exact onAddedChildren_on_scene ch _ scene (by simp [_m_pScene]) node hnode
/-- The same for the subtrees of a list of siblings. -/
theorem onAddedChildren_on_scene (ch : List GameObject) (self : GameObject) (scene : Nat)
    (h : self._m_pScene = some scene) :
    ∀ node ∈ subtreeChildren (onAddedChildren ch self), node._m_pScene = some scene :=
  match ch with
  | [] => by
    intro node hnode
    simp [onAddedChildren, subtreeChildren] at hnode
  | c :: rest => by
    intro node hnode
    simp only [onAddedChildren, subtreeChildren, List.mem_append] at hnode
    rcases hnode with hnode | hnode
    · exact onAdded_on_scene c self scene h node hnode
    · exact onAddedChildren_on_scene rest self scene h node hnode
end

mutual
/-- The nodes of the subtree are the same objects after `onAdded`. -/
theorem onAdded_subtree_uuid (g parent : GameObject) :
    (g.onAdded parent).subtree.map _m_uuid = g.subtree.map _m_uuid :=
  match g with
  | mk n ch cs td ini sc u => by
    simp only [onAdded, subtree, List.map_cons, _m_uuid]
    rw [onAddedChildren_subtree_uuid ch]
/-- The same for the subtrees of a list of siblings. -/
theorem onAddedChildren_subtree_uuid (ch : List GameObject) (self : GameObject) :
    (subtreeChildren (onAddedChildren ch self)).map _m_uuid
      = (subtreeChildren ch).map _m_uuid :=
  match ch with
  | [] => rfl
  | c :: rest => by
    simp only [onAddedChildren, subtreeChildren, List.map_append]
    rw [onAdded_subtree_uuid c self, onAddedChildren_subtree_uuid rest self]
end

mutual
/-- After `onRemoved` no node of the subtree has a scene reference. -/
theorem onRemoved_off_scene (g parent : GameObject) :
    ∀ node ∈ (g.onRemoved parent).subtree, node._m_pScene = none :=
  match g with
  | mk n ch cs td ini sc u => by
    intro node hnode
    simp only [onRemoved, subtree, List.mem_cons] at hnode
    rcases hnode with rfl | hnode
    · rfl
    · exact onRemovedChildren_off_scene ch _ node hnode
/-- The same for the subtrees of a list of siblings. -/
theorem onRemovedChildren_off_scene (ch : List GameObject) (self : GameObject) :
    ∀ node ∈ subtreeChildren (onRemovedChildren ch self), node._m_pScene = none :=
  match ch with
  | [] => by
    intro node hnode
    simp [onRemovedChildren, subtreeChildren] at hnode
  | c :: rest => by
    intro node hnode
    simp only [onRemovedChildren, subtreeChildren, List.mem_append] at hnode
    rcases hnode with hnode | hnode
    · exact onRemoved_off_scene c self node hnode
    · exact onRemovedChildren_off_scene rest self node hnode
end

mutual
/-- The nodes of the subtree are the same objects after `onRemoved`. -/
theorem onRemoved_subtree_uuid (g parent : GameObject) :
    (g.onRemoved parent).subtree.map _m_uuid = g.subtree.map _m_uuid :=
  match g with
  | mk n ch cs td ini sc u => by
    simp only [onRemoved, subtree, List.map_cons, _m_uuid]
    rw [onRemovedChildren_subtree_uuid ch]
/-- The same for the subtrees of a list of siblings. -/
theorem onRemovedChildren_subtree_uuid (ch : List GameObject) (self : GameObject) :
    (subtreeChildren (onRemovedChildren ch self)).map _m_uuid
      = (subtreeChildren ch).map _m_uuid :=
  match ch with
  | [] => rfl
  | c :: rest => by
    simp only [onRemovedChildren, subtreeChildren, List.map_append]
    rw [onRemoved_subtree_uuid c self, onRemovedChildren_subtree_uuid rest self]
end

mutual
/-- With the parent on no scene, `onAdded` leaves a subtree that is on no scene
as it is. -/
theorem onAdded_stays_off_scene (g parent : GameObject) (h : parent._m_pScene = none)
    (off : ∀ node ∈ g.subtree, node._m_pScene = none) :
    ∀ node ∈ (g.onAdded parent).subtree, node._m_pScene = none :=
  match g with
  | mk n ch cs td ini sc u => by
    have hsc : sc = none := off (mk n ch cs td ini sc u) (by simp [subtree])
    subst hsc
    intro node hnode
    simp only [onAdded, subtree, List.mem_cons, h] at hnode
    rcases hnode with rfl | hnode
    · simp [_m_pScene]
    · refine onAddedChildren_stays_off_scene ch _ (by simp [_m_pScene]) ?_ node hnode
      intro m hm
      exact off m (by simp [subtree, hm])
/-- The same for the subtrees of a list of siblings. -/
theorem onAddedChildren_stays_off_scene (ch : List GameObject) (self : GameObject)
    (h : self._m_pScene = none)
    (off : ∀ node ∈ subtreeChildren ch, node._m_pScene = none) :
    ∀ node ∈ subtreeChildren (onAddedChildren ch self), node._m_pScene = none :=
  match ch with
  | [] => by
    intro node hnode
    simp [onAddedChildren, subtreeChildren] at hnode
  | c :: rest => by
    intro node hnode
    simp only [onAddedChildren, subtreeChildren, List.mem_append] at hnode
    rcases hnode with hnode | hnode
    · refine onAdded_stays_off_scene c self h ?_ node hnode
      intro m hm
      exact off m (by simp [subtreeChildren, hm])
    · refine onAddedChildren_stays_off_scene rest self h ?_ node hnode
      intro m hm
      exact off m (by simp [subtreeChildren, hm])
end

/-- A child that received `onAdded(*this)` from a parent on a scene has the
scene of that parent. -/
theorem onAdded_children_inherit (g parent : GameObject) :
    ∀ c ∈ (g.onAdded parent)._m_hChildren,
      (g.onAdded parent)._m_pScene ≠ none → c._m_pScene = (g.onAdded parent)._m_pScene := by
  intro c hc live
  obtain ⟨self, hself, hch⟩ := onAdded_children g parent
  rw [hch, onAddedChildren_eq, List.mem_map] at hc
  obtain ⟨c0, _, rfl⟩ := hc
  rw [onAdded_scene c0 self, hself]
  simp [live]

mutual
/-- After `onAdded`, below every node that is on a scene the children are on
the same scene. -/
theorem onAdded_inherited (g parent : GameObject) :
    ∀ node ∈ (g.onAdded parent).subtree, ∀ c ∈ node._m_hChildren,
      node._m_pScene ≠ none → c._m_pScene = node._m_pScene :=
  match g with
  | mk n ch cs td ini sc u => by
    intro node hnode
    have root := onAdded_children_inherit (mk n ch cs td ini sc u) parent
    simp only [onAdded, subtree, List.mem_cons] at hnode root
    rcases hnode with rfl | hnode
    · exact root
    · exact onAddedChildren_inherited ch _ node hnode
/-- The same for the subtrees of a list of siblings. -/
theorem onAddedChildren_inherited (ch : List GameObject) (self : GameObject) :
    ∀ node ∈ subtreeChildren (onAddedChildren ch self), ∀ c ∈ node._m_hChildren,
      node._m_pScene ≠ none → c._m_pScene = node._m_pScene :=
  match ch with
  | [] => by
    intro node hnode
    simp [onAddedChildren, subtreeChildren] at hnode
  | c :: rest => by
    intro node hnode
    simp only [onAddedChildren, subtreeChildren, List.mem_append] at hnode
    rcases hnode with hnode | hnode
    · exact onAdded_inherited c self node hnode
    · exact onAddedChildren_inherited rest self node hnode
end

/-- What `onScene()` returns, in terms of the scene reference. -/
theorem onScene_eq_false (g : GameObject) : g.onScene = false ↔ g._m_pScene = none := by
  simp [onScene]

/-- What `onScene()` returns, in terms of the scene reference. -/
theorem onScene_eq_true (g : GameObject) : g.onScene = true ↔ g._m_pScene ≠ none := by
  simp [onScene]

end GameObject

/-- C7: `destroy()` on a node first tears down the node's own components in
map order and only then runs `destroy()` on the children, one after the other,
so at every level the own components come before those of the descendants;
the `destroy` calls are exactly one per component attached in the subtree; and
afterwards no node of the subtree has a component left. -/
theorem destroy_own_components_first (g : GameObject) :
    g.destroy.trace
        = GameObject.destroyComponents g._m_hComponents
          ++ g._m_hChildren.flatMap (fun c => c.destroy.trace)
      ∧ g.destroy.trace
          = GameObject.teardown g.ownComponents
            ++ GameObject.teardown g.descendantComponents
      ∧ (g.destroy.trace.filter (fun e => decide (e.call = Call.destroy))).map Event.target
          = g.subtreeComponents
      ∧ (∀ a, g.destroy.trace.count ⟨Call.destroy, a⟩ = g.subtreeComponents.count a)
      ∧ (g.subtreeComponents.Nodup →
          ∀ a ∈ g.subtreeComponents, g.destroy.trace.count ⟨Call.destroy, a⟩ = 1)
      ∧ (∀ node ∈ g.destroy.self.subtree, node._m_hComponents = [])
      ∧ g.destroy.self.subtree.map GameObject._m_uuid
          = g.subtree.map GameObject._m_uuid := by
  have whole : g.destroy.trace = GameObject.teardown g.subtreeComponents := by
    rw [GameObject.destroy_trace, GameObject.subtreeComponents,
      GameObject.teardown_append]
  have counts : ∀ a, g.destroy.trace.count ⟨Call.destroy, a⟩
      = g.subtreeComponents.count a := by
    intro a
    rw [whole, GameObject.count_destroy_teardown]
  refine ⟨GameObject.destroy_trace_loops g, GameObject.destroy_trace g, ?_, counts, ?_,
    GameObject.destroy_components_empty g, GameObject.destroy_subtree_uuid g⟩
  · rw [whole]
    generalize g.subtreeComponents = xs
    induction xs with
    | nil => rfl
    | cons x rest ih =>
      have step : GameObject.teardown (x :: rest)
          = ⟨Call.destroy, x⟩ :: ⟨Call.delete, x⟩ :: GameObject.teardown rest := rfl
      rw [step]
      simp [ih]
  · intro distinct a ha
    rw [counts]
    exact List.count_eq_one_of_mem distinct ha

/-- Witness of C7: the teardown of the three-level sample subtree. -/
theorem destroy_own_components_first_witness :
    sampleSubtree.subtreeComponents.Nodup
      ∧ sampleSubtree.destroy.trace
          = [⟨Call.destroy, 200⟩, ⟨Call.delete, 200⟩, ⟨Call.destroy, 201⟩,
              ⟨Call.delete, 201⟩, ⟨Call.destroy, 202⟩, ⟨Call.delete, 202⟩,
              ⟨Call.destroy, 203⟩, ⟨Call.delete, 203⟩]
      ∧ sampleSubtree.destroy.trace.count ⟨Call.destroy, 203⟩ = 1
      ∧ sampleSubtree.destroy.self.subtree.map GameObject._m_hComponents = [[], [], []] :=
  ⟨by decide, by decide,
    (destroy_own_components_first sampleSubtree).2.2.2.2.1 (by decide) 203 (by decide),
    by decide⟩

/-- C8: when the parent is on a scene, after `onAdded(parent)` the object and
all its descendants, at any depth, refer to the scene of the parent, so
`onScene()` is true for each of them. -/
theorem onAdded_propagates_scene (g parent : GameObject)
    (attached : parent.onScene = true) :
    (∀ node ∈ (g.onAdded parent).subtree,
        node._m_pScene = parent._m_pScene ∧ node.onScene = true)
      ∧ (g.onAdded parent).subtree.map GameObject._m_uuid
          = g.subtree.map GameObject._m_uuid := by
  refine ⟨?_, GameObject.onAdded_subtree_uuid g parent⟩
  rw [GameObject.onScene_eq_true] at attached
  obtain ⟨scene, hscene⟩ := Option.ne_none_iff_exists'.mp attached
  intro node hnode
  have h := GameObject.onAdded_on_scene g parent scene hscene node hnode
  refine ⟨by rw [h, hscene], ?_⟩
  rw [GameObject.onScene_eq_true, h]
  simp

/-- Witness of C8: the three-level sample subtree attached under an object
that is on the scene 900. -/
theorem onAdded_propagates_scene_witness :
    sampleSceneParent.onScene = true
      ∧ (sampleSubtree.onAdded sampleSceneParent).subtree.map GameObject.getName
          = ["root", "child", "grandchild"]
      ∧ ∀ node ∈ (sampleSubtree.onAdded sampleSceneParent).subtree,
          node._m_pScene = some 900 ∧ node.onScene = true :=
  ⟨by decide, by decide, (onAdded_propagates_scene sampleSubtree sampleSceneParent
    (by decide)).1⟩

/-- C9: whatever the scene references in the subtree were, after
`onRemoved(parent)` the object and all its descendants, at any depth, have an
empty scene reference, so `onScene()` is false for each of them. -/
theorem onRemoved_clears_scene (g parent : GameObject) :
    (∀ node ∈ (g.onRemoved parent).subtree,
        node._m_pScene = none ∧ node.onScene = false)
      ∧ (g.onRemoved parent).subtree.map GameObject._m_uuid
          = g.subtree.map GameObject._m_uuid := by
  refine ⟨?_, GameObject.onRemoved_subtree_uuid g parent⟩
  intro node hnode
  have h := GameObject.onRemoved_off_scene g parent node hnode
  exact ⟨h, (GameObject.onScene_eq_false node).mpr h⟩

/-- Witness of C9: the three-level sample subtree detached from the scene 900. -/
theorem onRemoved_clears_scene_witness :
    sampleSubtreeOnScene.subtree.map GameObject.onScene = [true, true, true]
      ∧ (sampleSubtreeOnScene.onRemoved sampleSceneParent).subtree.map GameObject.getName
          = ["root", "child", "grandchild"]
      ∧ ∀ node ∈ (sampleSubtreeOnScene.onRemoved sampleSceneParent).subtree,
          node._m_pScene = none ∧ node.onScene = false :=
  ⟨by decide, by decide, (onRemoved_clears_scene sampleSubtreeOnScene sampleSceneParent).1⟩

/-- C10, as stated, fails: `onAdded` with a parent that is on no scene does not
empty a scene reference. An object that carries a scene reference keeps it,
and a child that carries one keeps it below a parent that has none. -/
theorem onAdded_off_scene_counterexample :
    sampleLooseParent.onScene = false
      ∧ (sampleStale.onAdded sampleLooseParent).onScene = true
      ∧ (sampleStaleChild.onAdded sampleLooseParent).onScene = false
      ∧ (sampleStaleChild.onAdded sampleLooseParent)._m_hChildren.map GameObject.onScene
          = [true] := by
  decide

/-- C10, amended: when the parent is on no scene, `onAdded(parent)` leaves the
scene reference of the object as it was; if the object and all its descendants
had an empty scene reference before, all of them have an empty one afterwards;
and after `onAdded` every node below a node that is on a scene has the scene
reference of that node. -/
theorem onAdded_parent_off_scene (g parent : GameObject)
    (detached : parent.onScene = false) :
    (g.onAdded parent)._m_pScene = g._m_pScene
      ∧ ((∀ node ∈ g.subtree, node.onScene = false) →
          ∀ node ∈ (g.onAdded parent).subtree, node.onScene = false)
      ∧ (∀ node ∈ (g.onAdded parent).subtree, ∀ c ∈ node._m_hChildren,
          node.onScene = true → c._m_pScene = node._m_pScene) := by
  rw [GameObject.onScene_eq_false] at detached
  refine ⟨?_, ?_, ?_⟩
  · rw [GameObject.onAdded_scene, detached]
    simp
  · intro off node hnode
    rw [GameObject.onScene_eq_false]
    refine GameObject.onAdded_stays_off_scene g parent detached ?_ node hnode
    intro m hm
    exact (GameObject.onScene_eq_false m).mp (off m hm)
  · intro node hnode c hc live
    exact GameObject.onAdded_inherited g parent node hnode c hc
      ((GameObject.onScene_eq_true node).mp live)

/-- Witness of C10 as amended: the three-level sample subtree, on no scene,
attached under an object that is on no scene. -/
theorem onAdded_parent_off_scene_witness :
    sampleLooseParent.onScene = false
      ∧ (sampleSubtree.onAdded sampleLooseParent)._m_pScene = none
      ∧ ∀ node ∈ (sampleSubtree.onAdded sampleLooseParent).subtree,
          node.onScene = false :=
  have h := onAdded_parent_off_scene sampleSubtree sampleLooseParent (by decide)
  ⟨by decide, h.1, h.2.1 (by decide)⟩

/-! ## Lookup in a map after a change -/

namespace Map

variable {κ ν : Type}

/-- After `erase(k)` the key `k` is not found. -/
theorem find_erase_self [DecidableEq κ] (m : Map κ ν) (k : κ) :
    find (erase m k) k = none := by
  induction m with
  | nil => rfl
  | cons e rest ih =>
    unfold erase at ih ⊢
    by_cases h : e.1 = k
    · simp only [List.filter_cons, h, ne_eq, not_true_eq_false, decide_False]
      exact ih
    · simp only [List.filter_cons, h, ne_eq, not_false_eq_true, decide_True, ite_true,
        find, ite_false]
      exact ih

/-- After `erase(k)` every other key is found as before. -/
theorem find_erase_other [DecidableEq κ] (m : Map κ ν) (k other : κ) (h : other ≠ k) :
    find (erase m k) other = find m other := by
  induction m with
  | nil => rfl
  | cons e rest ih =>
    unfold erase at ih ⊢
    by_cases hk : e.1 = k
    · have hne : e.1 ≠ other := fun heq => h (heq.symm.trans hk)
      simp only [List.filter_cons, hk, ne_eq, not_true_eq_false, decide_False, find]
      rw [← hk] at ih ⊢
      simp only [hne, ite_false]
      simpa [hk] using ih
    · simp only [List.filter_cons, hk, ne_eq, not_false_eq_true, decide_True, ite_true,
        find]
      rw [ih]

/-- After `insert` of a key that was absent, the key maps to the value
inserted. -/
theorem find_insert_self [DecidableEq κ] [Less κ] (m : Map κ ν) (k : κ) (v : ν)
    (absent : find m k = none) : find (insert m k v) k = some v := by
  induction m with
  | nil => simp [insert, find]
  | cons e rest ih =>
    by_cases hk : e.1 = k
    · simp [find, hk] at absent
    · have hrest : find rest k = none := by simpa [find, hk] using absent
      by_cases hl : Less.less k e.1 = true
      · simp [insert, find, hk, hl]
      · simp [insert, find, hk, hl, ih hrest]

/-- After `insert` under `k` every other key is found as before. -/
theorem find_insert_other [DecidableEq κ] [Less κ] (m : Map κ ν) (k other : κ) (v : ν)
    (h : other ≠ k) : find (insert m k v) other = find m other := by
  have hne : k ≠ other := fun heq => h heq.symm
  induction m with
  | nil => simp [insert, find, hne]
  | cons e rest ih =>
    by_cases hk : e.1 = k
    · simp [insert, hk]
    · by_cases hl : Less.less k e.1 = true
      · simp [insert, find, hk, hl, hne]
      · simp [insert, find, hk, hl, ih]

end Map

/-! ## Path lookup -/

namespace GameObject

/-- Following segments that resolve brings the loop to the node they reach. -/
theorem followLevels_of_reaches (self : GameObject) (_path : String)
    {g target : GameObject} {segments : List String} (h : Reaches g segments target)
    (more : List String) :
    followLevels self _path g (segments ++ more) = followLevels self _path target more := by
  induction h with
  | here g => rfl
  | step hchild _ ih =>
    simp only [List.cons_append, followLevels, hchild]
    exact ih

/-- A list of segments either resolves to a node or has a first segment that
names no child of the node reached before it. -/
theorem reaches_or_stops (g : GameObject) (segments : List String) :
    (∃ target, Reaches g segments target)
      ∨ ∃ before segment after node, segments = before ++ segment :: after
          ∧ Reaches g before node ∧ node.getChild segment = none := by
  induction segments generalizing g with
  | nil => exact Or.inl ⟨g, Reaches.here g⟩
  | cons s rest ih =>
    cases hchild : g.getChild s with
    | none => exact Or.inr ⟨[], s, rest, g, rfl, Reaches.here g, hchild⟩
    | some child =>
      rcases ih child with ⟨target, ht⟩ | ⟨before, segment, after, node, hsplit, hr, hn⟩
      · exact Or.inl ⟨target, Reaches.step hchild ht⟩
      · refine Or.inr ⟨s :: before, segment, after, node, ?_, Reaches.step hchild hr, hn⟩
        rw [hsplit]
        rfl

end GameObject

/-- C11: whatever `Split` returns for the path, if each segment in turn names a
child of the node reached so far, `getGameObjectByPath` returns the node
reached after the last segment; if some segment names no child of the node
reached so far, the lookup stops there and returns the sentinel, after logging
one message; one of the two is always the case, and the function returns in
both. -/
theorem getGameObjectByPath_resolves (Split : String → String → List String)
    (g : GameObject) (path : String) :
    (∀ target, GameObject.Reaches g (Split path "/") target →
        (g.getGameObjectByPath Split path).result = some target
          ∧ (g.getGameObjectByPath Split path).log = [])
      ∧ (∀ before segment after node, Split path "/" = before ++ segment :: after →
          GameObject.Reaches g before node → node.getChild segment = none →
          (g.getGameObjectByPath Split path).result = none
            ∧ (g.getGameObjectByPath Split path).log
                = ["| GameObject : " ++ g.getName ++ " | Child not found. Path: " ++ path])
      ∧ ((∃ target, GameObject.Reaches g (Split path "/") target)
          ∨ ∃ before segment after node, Split path "/" = before ++ segment :: after
              ∧ GameObject.Reaches g before node ∧ node.getChild segment = none) := by
  refine ⟨?_, ?_, GameObject.reaches_or_stops g (Split path "/")⟩
  · intro target h
    have step := GameObject.followLevels_of_reaches g path h []
    rw [List.append_nil] at step
    unfold GameObject.getGameObjectByPath
    rw [step]
    exact ⟨rfl, rfl⟩
  · intro before segment after node hsplit h hnone
    have step := GameObject.followLevels_of_reaches g path h (segment :: after)
    unfold GameObject.getGameObjectByPath
    rw [hsplit, step]
    simp [GameObject.followLevels, hnone]

/-- Witness of C11: in the tree `root/child/grandchild` the path
`child/grandchild` resolves to the grandchild and `child/missing` returns the
sentinel. -/
theorem getGameObjectByPath_resolves_witness :
    (∃ target, GameObject.Reaches sampleSubtree (sampleSplit "child/grandchild" "/") target
        ∧ target.getName = "grandchild"
        ∧ (sampleSubtree.getGameObjectByPath sampleSplit "child/grandchild").result
            = some target)
      ∧ (sampleSubtree.getGameObjectByPath sampleSplit "child/missing").result = none
      ∧ (sampleSubtree.getGameObjectByPath sampleSplit "child/missing").log
          = ["| GameObject : root | Child not found. Path: child/missing"] :=
  have split1 : sampleSplit "child/grandchild" "/" = ["child", "grandchild"] := by decide
  have split2 : sampleSplit "child/missing" "/" = ["child"] ++ "missing" :: [] := by decide
  have down : GameObject.Reaches sampleSubtree ["child"]
      (GameObject.mk "child"
        [GameObject.mk "grandchild" [] [(0, ⟨203, 0, some 12⟩)] false false none 12]
        [(0, ⟨202, 0, some 11⟩)] false false none 11) :=
    GameObject.Reaches.step rfl (GameObject.Reaches.here _)
  have reach : GameObject.Reaches sampleSubtree (sampleSplit "child/grandchild" "/")
      (GameObject.mk "grandchild" [] [(0, ⟨203, 0, some 12⟩)] false false none 12) := by
    rw [split1]
    have below : GameObject.Reaches
        (GameObject.mk "child"
          [GameObject.mk "grandchild" [] [(0, ⟨203, 0, some 12⟩)] false false none 12]
          [(0, ⟨202, 0, some 11⟩)] false false none 11)
        ["grandchild"]
        (GameObject.mk "grandchild" [] [(0, ⟨203, 0, some 12⟩)] false false none 12) :=
      GameObject.Reaches.step rfl (GameObject.Reaches.here _)
    exact GameObject.Reaches.step
      (show sampleSubtree.getChild "child" = some (GameObject.mk "child"
          [GameObject.mk "grandchild" [] [(0, ⟨203, 0, some 12⟩)] false false none 12]
          [(0, ⟨202, 0, some 11⟩)] false false none 11) from rfl)
      below
  have h := getGameObjectByPath_resolves sampleSplit sampleSubtree
  ⟨⟨_, reach, rfl, ((h "child/grandchild").1 _ reach).1⟩,
    ((h "child/missing").2.1 _ _ _ _ split2 down rfl).1,
    ((h "child/missing").2.1 _ _ _ _ split2 down rfl).2⟩

/-! ## Repeated bring-up, update and removal of one component -/

/-- C12: `init()` on an initialised object calls no hook and changes nothing;
every object is initialised after `init()`, so a second `init()` in a row adds
no call and no change to what the first one did. -/
theorem init_idempotent (g : GameObject) :
    (g._m_isInitialized = true → g.init.trace = [] ∧ g.init.self = g)
      ∧ g.init.self._m_isInitialized = true
      ∧ g.init.self.init.trace = []
      ∧ g.init.self.init.self = g.init.self
      ∧ g.init.trace ++ g.init.self.init.trace = g.init.trace := by
  cases g with
  | mk n ch cs td ini sc u =>
    cases ini <;> simp [GameObject.init, GameObject._m_isInitialized]

/-- Witness of C12: `init()` twice on the sample object with two components
makes one round of calls. -/
theorem init_idempotent_witness :
    sampleInitialized._m_isInitialized = true
      ∧ sampleInitialized.init.trace = []
      ∧ sampleObject.init.trace ++ sampleObject.init.self.init.trace
          = [⟨Call.create, 100⟩, ⟨Call.create, 101⟩, ⟨Call.init, 100⟩, ⟨Call.init, 101⟩] :=
  ⟨rfl, ((init_idempotent sampleInitialized).1 rfl).1,
    (init_idempotent sampleObject).2.2.2.2.trans (by decide)⟩

/-- C13: `update()` calls `update` once on every attached component, in map
order, calls nothing else, in particular nothing on a component of a child,
and leaves the object as it was. -/
theorem update_own_components (g : GameObject) :
    g.update.trace = g._m_hComponents.map (fun e => Event.mk Call.update e.2.addr)
      ∧ g.update.trace.map Event.target = g.ownComponents
      ∧ (∀ e ∈ g.update.trace, e.call = Call.update ∧ e.target ∈ g.ownComponents)
      ∧ g.update.trace.length = g._m_hComponents.length
      ∧ g.update.self = g := by
  refine ⟨rfl, ?_, ?_, ?_, rfl⟩
  · simp [GameObject.update, GameObject.forEachComponent, GameObject.ownComponents]
  · intro e he
    simp only [GameObject.update, GameObject.forEachComponent, List.mem_map] at he
    obtain ⟨x, hx, rfl⟩ := he
    exact ⟨rfl, List.mem_map.mpr ⟨x, hx, rfl⟩⟩
  · simp [GameObject.update, GameObject.forEachComponent]

/-- Witness of C13: `update()` on the root of the sample subtree reaches the two
components of the root and none of those of the child and the grandchild. -/
theorem update_own_components_witness :
    sampleSubtree.update.trace = [⟨Call.update, 200⟩, ⟨Call.update, 201⟩]
      ∧ sampleSubtree.descendantComponents = [202, 203]
      ∧ ∀ e ∈ sampleSubtree.update.trace,
          e.call = Call.update ∧ e.target ∈ sampleSubtree.ownComponents :=
  ⟨(update_own_components sampleSubtree).1.trans (by decide), by decide,
    (update_own_components sampleSubtree).2.2.1⟩

/-- C14: when a component of type `t` is attached, `detroyComponent(t)` calls
`destroy` on it once, deletes it, removes its entry, so `hasComponent(t)` is
false, and leaves the other entries and the other members as they were; when
none is attached it calls nothing and changes nothing. -/
theorem detroyComponent_removes_one (g : GameObject) (t : eCOMPONENT) :
    (∀ c, Map.find g._m_hComponents t = some c →
        (g.detroyComponent t).trace = [⟨Call.destroy, c.addr⟩, ⟨Call.delete, c.addr⟩]
          ∧ (g.detroyComponent t).trace.count ⟨Call.destroy, c.addr⟩ = 1
          ∧ (g.detroyComponent t).self.hasComponent t = false
          ∧ (∀ other, other ≠ t →
              Map.find (g.detroyComponent t).self._m_hComponents other
                = Map.find g._m_hComponents other)
          ∧ (g.detroyComponent t).self._m_hComponents
              = g._m_hComponents.filter (fun e => decide (e.1 ≠ t))
          ∧ (g.detroyComponent t).self._m_isInitialized = g._m_isInitialized
          ∧ (g.detroyComponent t).self._m_pScene = g._m_pScene
          ∧ (g.detroyComponent t).self._m_hChildren = g._m_hChildren)
      ∧ (g.hasComponent t = false →
          (g.detroyComponent t).self = g ∧ (g.detroyComponent t).trace = []) := by
  cases g with
  | mk n ch cs td ini sc u =>
    constructor
    · intro c hc
      have hc2 : Map.find (GameObject.mk n ch cs td ini sc u)._m_hComponents t = some c := hc
      simp only [GameObject._m_hComponents] at hc
      have run : (GameObject.mk n ch cs td ini sc u).detroyComponent t
          = ⟨GameObject.mk n ch (Map.erase cs t) td ini sc u,
              [⟨Call.destroy, c.addr⟩, ⟨Call.delete, c.addr⟩]⟩ := by
        simp [GameObject.detroyComponent, GameObject.hasComponent, hc2]
      rw [run]
      refine ⟨rfl, by simp, ?_, ?_, rfl, rfl, rfl, rfl⟩
      · simp [GameObject.hasComponent, GameObject._m_hComponents, Map.find_erase_self]
      · intro other hne
        exact Map.find_erase_other cs t other hne
    · intro absent
      simp [GameObject.detroyComponent, absent]

/-- Witness of C14: removing the component of type `0` of the sample object,
and removing one of type `5`, which it does not have. -/
theorem detroyComponent_removes_one_witness :
    (sampleObject.detroyComponent 0).trace = [⟨Call.destroy, 100⟩, ⟨Call.delete, 100⟩]
      ∧ (sampleObject.detroyComponent 0).self.hasComponent 0 = false
      ∧ Map.find (sampleObject.detroyComponent 0).self._m_hComponents 1
          = some ⟨101, 1, some 1⟩
      ∧ (sampleObject.detroyComponent 5).trace = [] :=
  have h := (detroyComponent_removes_one sampleObject 0).1 ⟨100, 0, some 1⟩ rfl
  ⟨h.1, h.2.2.1, (h.2.2.2.1 1 (by decide)).trans (by decide),
    ((detroyComponent_removes_one sampleObject 5).2 (by decide)).2⟩

/-- C15: for a component `c` without owner whose type tag is not attached,
`addComponent(c)` does not throw; afterwards the type tag maps to `c`, now
owned by the object, `hasComponent` of the tag is true, every other type tag
maps as before, and the initialised flag, the scene reference, the children
and the identity are as before. -/
theorem addComponent_attaches (g : GameObject) (c : Component)
    (unowned : c._m_pGameObject = none) (absent : g.hasComponent c.getID = false) :
    (g.addComponent c).thrown = none
      ∧ (g.addComponent c).component
          = { addr := c.addr, getID := c.getID, _m_pGameObject := some g._m_uuid }
      ∧ Map.find (g.addComponent c).self._m_hComponents c.getID
          = some (g.addComponent c).component
      ∧ (g.addComponent c).self.hasComponent c.getID = true
      ∧ (∀ other, other ≠ c.getID →
          Map.find (g.addComponent c).self._m_hComponents other
            = Map.find g._m_hComponents other)
      ∧ (g.addComponent c).self._m_isInitialized = g._m_isInitialized
      ∧ (g.addComponent c).self._m_pScene = g._m_pScene
      ∧ (g.addComponent c).self._m_hChildren = g._m_hChildren
      ∧ (g.addComponent c).self._m_uuid = g._m_uuid := by
  cases g with
  | mk n ch cs td ini sc u =>
    have none_found : Map.find cs c.getID = none := by
      simpa [GameObject.hasComponent, GameObject._m_hComponents] using absent
    have found := Map.find_insert_self cs c.getID
      ({ addr := c.addr, getID := c.getID, _m_pGameObject := some u } : Component) none_found
    have others := fun other (hne : other ≠ c.getID) =>
      Map.find_insert_other cs c.getID other
        ({ addr := c.addr, getID := c.getID, _m_pGameObject := some u } : Component) hne
    have has_now : (Map.find (Map.insert cs c.getID
        ({ addr := c.addr, getID := c.getID, _m_pGameObject := some u } : Component))
        c.getID).isSome = true := by
      rw [found]
      rfl
    cases ini
    · have run : (GameObject.mk n ch cs td false sc u).addComponent c
          = ⟨none, GameObject.mk n ch (Map.insert cs c.getID
              { addr := c.addr, getID := c.getID, _m_pGameObject := some u }) td false sc u,
              { addr := c.addr, getID := c.getID, _m_pGameObject := some u }, []⟩ := by
        simp [GameObject.addComponent, absent, unowned]
      rw [run]
      exact ⟨rfl, rfl, found, has_now, others, rfl, rfl, rfl, rfl⟩
    · have run : (GameObject.mk n ch cs td true sc u).addComponent c
          = ⟨none, GameObject.mk n ch (Map.insert cs c.getID
              { addr := c.addr, getID := c.getID, _m_pGameObject := some u }) td true sc u,
              { addr := c.addr, getID := c.getID, _m_pGameObject := some u },
              [⟨Call.create, c.addr⟩, ⟨Call.init, c.addr⟩]⟩ := by
        simp [GameObject.addComponent, absent, unowned]
      rw [run]
      exact ⟨rfl, rfl, found, has_now, others, rfl, rfl, rfl, rfl⟩

/-- Witness of C15: a fresh component of type `2` attached to the sample
object. -/
theorem addComponent_attaches_witness :
    (sampleObject.addComponent sampleFresh).thrown = none
      ∧ Map.find (sampleObject.addComponent sampleFresh).self._m_hComponents 2
          = some ⟨102, 2, some 1⟩
      ∧ Map.find (sampleObject.addComponent sampleFresh).self._m_hComponents 0
          = some ⟨100, 0, some 1⟩ :=
  have h := addComponent_attaches sampleObject sampleFresh rfl (by decide)
  ⟨h.1, h.2.2.1.trans (by rw [h.2.1]; rfl), (h.2.2.2.2.1 0 (by decide)).trans (by decide)⟩

/-! ## Resource groups: insertion, lookup, removal, clearing -/

/-- What `has` returns, in terms of `find`. -/
theorem ResourceGroup.has_eq_false (g : ResourceGroup) (key : String) :
    g.has key = false ↔ Map.find g._m_hResources key = none := by
  simp [ResourceGroup.has]

/-- The loop of `clear()` runs through when the assets still to visit are
distinct and none of them has been deleted: each one gets `destroy` and is
deleted, in map order. -/
theorem ResourceGroup.clearLoop_of_live (m : Map String Nat) (deleted : List Nat)
    (trace : List Event) (distinct : (m.map (fun e => e.2)).Nodup)
    (live : ∀ a ∈ m.map (fun e => e.2), a ∉ deleted) :
    ResourceGroup.clearLoop m deleted trace
      = (none, trace ++ GameObject.teardown (m.map (fun e => e.2))) := by
  induction m generalizing deleted trace with
  | nil => simp [ResourceGroup.clearLoop, GameObject.teardown]
  | cons e rest ih =>
    rw [List.map_cons, List.nodup_cons] at distinct
    have head_live : e.2 ∉ deleted := live e.2 (by simp)
    have rest_live : ∀ a ∈ rest.map (fun e => e.2), a ∉ e.2 :: deleted := by
      intro a ha hin
      rcases List.mem_cons.mp hin with rfl | hin
      · exact distinct.1 ha
      · exact live a (by simp only [List.map_cons, List.mem_cons]; exact Or.inr ha) hin
    simp only [ResourceGroup.clearLoop, head_live, ite_false]
    rw [ih (e.2 :: deleted) _ distinct.2 rest_live, List.append_assoc]
    rfl

/-- The loop of `clear()` ends with a call through a dangling pointer when an
asset is stored twice or a stored asset has been deleted. -/
theorem ResourceGroup.clearLoop_of_dangling (m : Map String Nat) (deleted : List Nat)
    (trace : List Event)
    (h : ¬ ((m.map (fun e => e.2)).Nodup ∧ ∀ a ∈ m.map (fun e => e.2), a ∉ deleted)) :
    (ResourceGroup.clearLoop m deleted trace).1 = some Fault.danglingDereference := by
  induction m generalizing deleted trace with
  | nil => simp at h
  | cons e rest ih =>
    by_cases head : e.2 ∈ deleted
    · simp [ResourceGroup.clearLoop, head]
    · simp only [ResourceGroup.clearLoop, head, ite_false]
      apply ih
      intro ⟨distinct, live⟩
      apply h
      refine ⟨?_, ?_⟩
      · rw [List.map_cons, List.nodup_cons]
        exact ⟨fun hin => live e.2 hin (List.mem_cons_self _ _), distinct⟩
      · intro a ha
        rw [List.map_cons, List.mem_cons] at ha
        rcases ha with rfl | ha
        · exact head
        · exact fun hin => live a ha (List.mem_cons_of_mem _ hin)

/-- When an asset is stored twice or a stored asset has been deleted, `clear()`
ends in the fault and does not empty the group. -/
theorem ResourceGroup.clear_of_dangling (g : ResourceGroup) (deleted : List Nat)
    (h : ¬ ((g._m_hResources.map (fun e => e.2)).Nodup
      ∧ ∀ a ∈ g._m_hResources.map (fun e => e.2), a ∉ deleted)) :
    (g.clear deleted).result = Except.error Fault.danglingDereference
      ∧ (g.clear deleted).self = g := by
  have fault := ResourceGroup.clearLoop_of_dangling g._m_hResources deleted [] h
  unfold ResourceGroup.clear
  cases hloop : ResourceGroup.clearLoop g._m_hResources deleted [] with
  | mk outcome trace =>
    rw [hloop] at fault
    simp only at fault
    subst fault
    exact ⟨rfl, rfl⟩

/-- When the stored assets are distinct and alive, `clear()` runs through. -/
theorem ResourceGroup.clear_of_live (g : ResourceGroup) (deleted : List Nat)
    (distinct : (g._m_hResources.map (fun e => e.2)).Nodup)
    (live : ∀ a ∈ g._m_hResources.map (fun e => e.2), a ∉ deleted) :
    g.clear deleted
      = ⟨Except.ok (), ⟨[]⟩, GameObject.teardown (g._m_hResources.map (fun e => e.2)), []⟩ := by
  unfold ResourceGroup.clear
  rw [ResourceGroup.clearLoop_of_live g._m_hResources deleted [] distinct live]
  rfl

/-- An asset that `get` returns is stored in the table. -/
theorem ResourceGroup.stored_of_get (g : ResourceGroup) (key : String) (a : Nat)
    (h : (g.get key).result = some a) : a ∈ g._m_hResources.map (fun e => e.2) := by
  rw [ResourceGroup.get_result] at h
  have mem : ∀ m : Map String Nat, Map.find m key = some a → a ∈ m.map (fun e => e.2) := by
    intro m
    induction m with
    | nil =>
      intro hm
      simp [Map.find] at hm
    | cons e rest ih =>
      intro hm
      by_cases hk : e.1 = key
      · simp [Map.find, hk] at hm
        simp [hm]
      · simp only [Map.find, hk, ite_false] at hm
        simp [ih hm]
  exact mem _ h

/-- C16: for an absent key and a non-null asset, `add(k, a)` reports `kSuccess`
and calls nothing on any asset; afterwards `has(k)` is true, `get(k)` returns
`a`, and every other key maps as before. -/
theorem add_new_key (g : ResourceGroup) (k : String) (a : Nat)
    (absent : g.has k = false) :
    (g.add k (some a)).result = eRESULT.kSuccess
      ∧ (g.add k (some a)).trace = []
      ∧ (g.add k (some a)).self.has k = true
      ∧ ((g.add k (some a)).self.get k).result = some a
      ∧ (∀ other, other ≠ k →
          ((g.add k (some a)).self.get other).result = (g.get other).result
            ∧ (g.add k (some a)).self.has other = g.has other) := by
  have none_found := (ResourceGroup.has_eq_false g k).mp absent
  have run : g.add k (some a)
      = ⟨eRESULT.kSuccess, ⟨Map.insert g._m_hResources k a⟩, [], []⟩ := by
    simp [ResourceGroup.add, absent]
  have found := Map.find_insert_self g._m_hResources k a none_found
  rw [run]
  refine ⟨rfl, rfl, ?_, ?_, ?_⟩
  · simp [ResourceGroup.has, found]
  · rw [ResourceGroup.get_result]
    exact found
  · intro other hne
    have same := Map.find_insert_other g._m_hResources k other a hne
    refine ⟨?_, ?_⟩
    · rw [ResourceGroup.get_result, ResourceGroup.get_result]
      exact same
    · simp only [ResourceGroup.has]
      rw [same]

/-- Witness of C16: `add("mesh0", 3)` on the group that holds `mesh1`. -/
theorem add_new_key_witness :
    sampleGroup.has "mesh0" = false
      ∧ (sampleGroup.add "mesh0" (some 3)).result = eRESULT.kSuccess
      ∧ ((sampleGroup.add "mesh0" (some 3)).self.get "mesh0").result = some 3
      ∧ ((sampleGroup.add "mesh0" (some 3)).self.get "mesh1").result = some 7 :=
  have h := add_new_key sampleGroup "mesh0" 3 (by decide)
  ⟨by decide, h.1, h.2.2.2.1, (h.2.2.2.2 "mesh1" (by decide)).1.trans (by decide)⟩

/-- C17: `get(k)` returns the asset stored under `k` when `has(k)` is true and
returns null exactly when `has(k)` is false; it leaves the group as it was and
calls nothing on any asset, so `get(k)` twice in a row returns the same
asset. -/
theorem get_is_lookup (g : ResourceGroup) (k : String) :
    (g.has k = true →
        ∃ a, Map.find g._m_hResources k = some a ∧ (g.get k).result = some a)
      ∧ ((g.get k).result = none ↔ g.has k = false)
      ∧ (g.get k).self = g
      ∧ (g.get k).trace = []
      ∧ ((g.get k).self.get k).result = (g.get k).result := by
  have same : (g.get k).self = g := by
    unfold ResourceGroup.get
    split <;> rfl
  refine ⟨?_, ?_, same, ?_, by rw [same]⟩
  · intro present
    rw [ResourceGroup.get_result]
    cases h : Map.find g._m_hResources k with
    | none => simp [ResourceGroup.has, h] at present
    | some a => exact ⟨a, rfl, rfl⟩
  · rw [ResourceGroup.get_result, ResourceGroup.has_eq_false]
  · unfold ResourceGroup.get
    split <;> rfl

/-- Witness of C17: `get` on the group that holds `mesh1`. -/
theorem get_is_lookup_witness :
    sampleGroup.has "mesh1" = true
      ∧ (∃ a, Map.find sampleGroup._m_hResources "mesh1" = some a
          ∧ (sampleGroup.get "mesh1").result = some a)
      ∧ (sampleGroup.get "mesh2").result = none :=
  ⟨by decide, (get_is_lookup sampleGroup "mesh1").1 (by decide),
    (get_is_lookup sampleGroup "mesh2").2.1.mpr (by decide)⟩

/-- C18: `add(k, null)` reports `kFail`, leaves the group as it was and calls
nothing on any asset, whether `k` is present or not. -/
theorem add_null_asset (g : ResourceGroup) (k : String) :
    (g.add k none).result = eRESULT.kFail
      ∧ (g.add k none).self = g
      ∧ (g.add k none).trace = [] :=
  ⟨rfl, rfl, rfl⟩

/-- C19, as stated, fails when one asset is stored under two keys, which `add`
allows: `clear()` destroys and deletes the asset at the first entry and at the
second entry calls `destroy` through the pointer to the deleted asset; the
group is not emptied. -/
theorem clear_shared_asset_counterexample :
    (sampleShared.get "a").result = some 7
      ∧ (sampleShared.get "b").result = some 7
      ∧ (sampleShared.clear []).result = Except.error Fault.danglingDereference
      ∧ (sampleShared.clear []).trace = [⟨Call.destroy, 7⟩, ⟨Call.delete, 7⟩]
      ∧ (sampleShared.clear []).self.has "a" = true
      ∧ (sampleShared.clear []).self.has "b" = true :=
  ⟨by decide, by decide, rfl, by decide, by decide, by decide⟩

/-- C19, amended: when no asset is stored under two keys and no stored asset
has been deleted before, `clear()` destroys every stored asset exactly once, in
map order, and leaves the group empty; on an empty group it destroys nothing,
and a second `clear()` in a row destroys nothing. -/
theorem clear_destroys_entries (g : ResourceGroup) (deleted : List Nat)
    (distinct : (g._m_hResources.map (fun e => e.2)).Nodup)
    (live : ∀ a ∈ g._m_hResources.map (fun e => e.2), a ∉ deleted) :
    (g.clear deleted).result = Except.ok ()
      ∧ (g.clear deleted).trace = GameObject.teardown (g._m_hResources.map (fun e => e.2))
      ∧ (∀ a, (g.clear deleted).trace.count ⟨Call.destroy, a⟩
          = (g._m_hResources.map (fun e => e.2)).count a)
      ∧ (∀ a ∈ g._m_hResources.map (fun e => e.2),
          (g.clear deleted).trace.count ⟨Call.destroy, a⟩ = 1)
      ∧ (∀ key a, (g.get key).result = some a →
          (g.clear deleted).trace.count ⟨Call.destroy, a⟩ = 1)
      ∧ (g.clear deleted).self = ⟨[]⟩
      ∧ (∀ key, (g.clear deleted).self.has key = false)
      ∧ (∀ gone, (ResourceGroup.clear ⟨[]⟩ gone).result = Except.ok ()
          ∧ (ResourceGroup.clear ⟨[]⟩ gone).trace = [])
      ∧ (∀ gone, ((g.clear deleted).self.clear gone).result = Except.ok ()
          ∧ ((g.clear deleted).self.clear gone).trace = []) := by
  have ran := ResourceGroup.clear_of_live g deleted distinct live
  have counts : ∀ a, (g.clear deleted).trace.count ⟨Call.destroy, a⟩
      = (g._m_hResources.map (fun e => e.2)).count a := by
    intro a
    rw [ran]
    exact GameObject.count_destroy_teardown a _
  have once : ∀ a ∈ g._m_hResources.map (fun e => e.2),
      (g.clear deleted).trace.count ⟨Call.destroy, a⟩ = 1 := by
    intro a ha
    rw [counts]
    exact List.count_eq_one_of_mem distinct ha
  refine ⟨by rw [ran], by rw [ran], counts, once, ?_, by rw [ran], ?_,
    fun _ => ⟨rfl, rfl⟩, ?_⟩
  · intro key a stored
    exact once a (ResourceGroup.stored_of_get g key a stored)
  · intro key
    rw [ran]
    rfl
  · intro gone
    rw [ran]
    exact ⟨rfl, rfl⟩

/-- Witness of C19 as amended: `clear()` on the group that holds `mesh1`, with no
asset deleted before. -/
theorem clear_destroys_entries_witness :
    (sampleGroup._m_hResources.map (fun e => e.2)).Nodup
      ∧ (sampleGroup.get "mesh1").result = some 7
      ∧ (sampleGroup.clear []).result = Except.ok ()
      ∧ (sampleGroup.clear []).trace = [⟨Call.destroy, 7⟩, ⟨Call.delete, 7⟩]
      ∧ (sampleGroup.clear []).trace.count ⟨Call.destroy, 7⟩ = 1
      ∧ (sampleGroup.clear []).self.has "mesh1" = false :=
  have h := clear_destroys_entries sampleGroup [] (by decide) (by decide)
  ⟨by decide, by decide, h.1, h.2.1.trans (by decide),
    h.2.2.2.2.1 "mesh1" 7 (by decide), h.2.2.2.2.2.2.1 "mesh1"⟩

/-- C20: for a present key, after `removeAndDestroy(k)` the group has no entry
for `k` and every other key maps as before. -/
theorem removeAndDestroy_erases_only_key (g : ResourceGroup) (k : String)
    (present : g.has k = true) :
    (g.removeAndDestroy k).self.has k = false
      ∧ (∀ other, other ≠ k →
          ((g.removeAndDestroy k).self.get other).result = (g.get other).result
            ∧ (g.removeAndDestroy k).self.has other = g.has other) := by
  have erased := (ResourceGroup.removeAndDestroy_of_has g k present).2.2
  rw [erased]
  refine ⟨?_, ?_⟩
  · rw [ResourceGroup.has_eq_false]
    exact Map.find_erase_self g._m_hResources k
  · intro other hne
    have same := Map.find_erase_other g._m_hResources k other hne
    refine ⟨?_, ?_⟩
    · rw [ResourceGroup.get_result, ResourceGroup.get_result]
      exact same
    · simp only [ResourceGroup.has]
      rw [same]

/-- Witness of C20: `removeAndDestroy("a")` on the group with the keys `a`
and `b`. -/
theorem removeAndDestroy_erases_only_key_witness :
    sampleShared.has "a" = true
      ∧ (sampleShared.removeAndDestroy "a").self.has "a" = false
      ∧ ((sampleShared.removeAndDestroy "a").self.get "b").result = some 7 :=
  have h := removeAndDestroy_erases_only_key sampleShared "a" (by decide)
  ⟨by decide, h.1, (h.2 "b" (by decide)).1.trans (by decide)⟩

/-! ## The lifecycle of a component along a trace -/

/-- What one step of the lifecycle can be. -/
theorem Phase.next_cases {strict : Bool} {p q : Phase} {c : Call}
    (h : Phase.next strict p c = some q) :
    (c = Call.create ∧ p = Phase.uncreated ∧ q = Phase.created)
      ∨ (c = Call.init ∧ p = Phase.created ∧ q = Phase.initialized)
      ∨ (c = Call.destroy ∧ q = Phase.destroyed)
      ∨ (c = Call.delete ∧ q = p)
      ∨ (c = Call.update ∧ q = p ∧ (strict = true → p = Phase.initialized)) := by
  cases p <;> cases c <;> cases strict <;> simp_all [Phase.next]

/-- From every phase `destroy` leads to the last one. -/
theorem Phase.next_destroy (strict : Bool) (p : Phase) :
    Phase.next strict p Call.destroy = some Phase.destroyed := by
  cases p <;> rfl

/-- In every phase `delete` changes nothing. -/
theorem Phase.next_delete (strict : Bool) (p : Phase) :
    Phase.next strict p Call.delete = some p := by
  cases p <;> rfl

/-- One event more at the front of a trace. -/
theorem phaseAfter_cons (strict : Bool) (a : Nat) (start : Option Phase) (e : Event)
    (trace : List Event) :
    phaseAfter strict a start (e :: trace)
      = phaseAfter strict a
          (if e.target = a then start.bind (fun p => Phase.next strict p e.call) else start)
          trace := rfl

/-- Two traces in a row. -/
theorem phaseAfter_append (strict : Bool) (a : Nat) (start : Option Phase)
    (first second : List Event) :
    phaseAfter strict a start (first ++ second)
      = phaseAfter strict a (phaseAfter strict a start first) second := by
  unfold phaseAfter
  rw [List.foldl_append]

/-- A broken lifecycle stays broken. -/
theorem phaseAfter_none (strict : Bool) (a : Nat) (trace : List Event) :
    phaseAfter strict a none trace = none := by
  induction trace with
  | nil => rfl
  | cons e rest ih =>
    rw [phaseAfter_cons]
    by_cases h : e.target = a <;> simp [h, ih]

/-- Calls on other components do not move the phase. -/
theorem phaseAfter_of_no_target (strict : Bool) (a : Nat) (start : Option Phase)
    (trace : List Event) (h : ∀ e ∈ trace, e.target ≠ a) :
    phaseAfter strict a start trace = start := by
  induction trace with
  | nil => rfl
  | cons e rest ih =>
    rw [phaseAfter_cons]
    have he : e.target ≠ a := h e (List.mem_cons_self _ _)
    simp only [he, ite_false]
    exact ih (fun x hx => h x (List.mem_cons_of_mem _ hx))

/-- One loop over a component table moves a component that is not in it
nowhere. -/
theorem phaseAfter_forEach_of_not_mem (strict : Bool) (a : Nat) (start : Option Phase)
    (c : Call) (m : Map eCOMPONENT Component) (h : a ∉ m.map (fun e => e.2.addr)) :
    phaseAfter strict a start (GameObject.forEachComponent c m) = start := by
  apply phaseAfter_of_no_target
  intro e he heq
  simp only [GameObject.forEachComponent, List.mem_map] at he
  obtain ⟨x, hx, rfl⟩ := he
  exact h (List.mem_map.mpr ⟨x, hx, heq⟩)

/-- One loop over a component table moves a component that is in it, once, by
one step. -/
theorem phaseAfter_forEach_of_mem (strict : Bool) (a : Nat) (start : Option Phase)
    (c : Call) (m : Map eCOMPONENT Component) (distinct : (m.map (fun e => e.2.addr)).Nodup)
    (h : a ∈ m.map (fun e => e.2.addr)) :
    phaseAfter strict a start (GameObject.forEachComponent c m)
      = start.bind (fun p => Phase.next strict p c) := by
  induction m generalizing start with
  | nil => simp at h
  | cons x rest ih =>
    have step : GameObject.forEachComponent c (x :: rest)
        = Event.mk c x.2.addr :: GameObject.forEachComponent c rest := rfl
    rw [step, phaseAfter_cons]
    rw [List.map_cons, List.nodup_cons] at distinct
    by_cases hx : x.2.addr = a
    · have absent : a ∉ rest.map (fun e => e.2.addr) := hx ▸ distinct.1
      simp only [hx, ite_true]
      exact phaseAfter_forEach_of_not_mem strict a _ c rest absent
    · have inrest : a ∈ rest.map (fun e => e.2.addr) := by
        rw [List.map_cons, List.mem_cons] at h
        rcases h with h | h
        · exact absurd h.symm hx
        · exact h
      simp only [hx, ite_false]
      exact ih start distinct.2 inrest

/-- A teardown ends the lifecycle of the components it names and leaves the
others where they are. -/
theorem phaseAfter_teardown (strict : Bool) (a : Nat) (p : Phase) (xs : List Nat) :
    phaseAfter strict a (some p) (GameObject.teardown xs)
      = some (if a ∈ xs then Phase.destroyed else p) := by
  induction xs generalizing p with
  | nil => rfl
  | cons x rest ih =>
    have step : GameObject.teardown (x :: rest)
        = ⟨Call.destroy, x⟩ :: ⟨Call.delete, x⟩ :: GameObject.teardown rest := rfl
    rw [step, phaseAfter_cons, phaseAfter_cons]
    by_cases hx : x = a
    · subst hx
      simp only [ite_true, Option.some_bind, Phase.next_destroy, Phase.next_delete, ih,
        List.mem_cons, true_or]
      simp
    · have hne : ¬ a = x := fun h => hx h.symm
      simp only [hx, ite_false, ih, List.mem_cons, hne, false_or]

/-- A lifecycle that is not broken has at most one `create`, and none unless
it starts with the component uncreated. -/
theorem count_create_le (strict : Bool) (a : Nat) (trace : List Event) (p q : Phase)
    (h : phaseAfter strict a (some p) trace = some q) :
    trace.count ⟨Call.create, a⟩ ≤ if p = Phase.uncreated then 1 else 0 := by
  induction trace generalizing p with
  | nil => simp
  | cons e rest ih =>
    rw [phaseAfter_cons] at h
    obtain ⟨c, t⟩ := e
    by_cases ht : t = a
    · subst ht
      simp only [ite_true, Option.some_bind] at h
      cases hn : Phase.next strict p c with
      | none => rw [hn, phaseAfter_none] at h; cases h
      | some p' =>
        rw [hn] at h
        have bound := ih p' h
        rcases Phase.next_cases hn with ⟨rfl, rfl, rfl⟩ | ⟨rfl, rfl, rfl⟩ | ⟨rfl, rfl⟩
          | ⟨rfl, rfl⟩ | ⟨rfl, rfl, _⟩ <;>
          simp_all [List.count_cons]
    · simp only [ht, ite_false] at h
      have bound := ih p h
      have ne : ¬ (Event.mk c t = Event.mk Call.create a) := by
        intro heq
        exact ht (congrArg Event.target heq)
      simpa [List.count_cons, ne] using bound

/-- A lifecycle that is not broken has at most one `init`, and none once the
component is initialised or destroyed. -/
theorem count_init_le (strict : Bool) (a : Nat) (trace : List Event) (p q : Phase)
    (h : phaseAfter strict a (some p) trace = some q) :
    trace.count ⟨Call.init, a⟩
      ≤ if p = Phase.uncreated ∨ p = Phase.created then 1 else 0 := by
  induction trace generalizing p with
  | nil => simp
  | cons e rest ih =>
    rw [phaseAfter_cons] at h
    obtain ⟨c, t⟩ := e
    by_cases ht : t = a
    · subst ht
      simp only [ite_true, Option.some_bind] at h
      cases hn : Phase.next strict p c with
      | none => rw [hn, phaseAfter_none] at h; cases h
      | some p' =>
        rw [hn] at h
        have bound := ih p' h
        rcases Phase.next_cases hn with ⟨rfl, rfl, rfl⟩ | ⟨rfl, rfl, rfl⟩ | ⟨rfl, rfl⟩
          | ⟨rfl, rfl⟩ | ⟨rfl, rfl, _⟩ <;>
          simp_all [List.count_cons]
    · simp only [ht, ite_false] at h
      have bound := ih p h
      have ne : ¬ (Event.mk c t = Event.mk Call.init a) := by
        intro heq
        exact ht (congrArg Event.target heq)
      simpa [List.count_cons, ne] using bound

/-- Cutting a lifecycle that is not broken at one call on the component. -/
theorem phaseAfter_split (strict : Bool) (a : Nat) (p q : Phase) (c : Call)
    (before after : List Event)
    (h : phaseAfter strict a (some p) (before ++ ⟨c, a⟩ :: after) = some q) :
    ∃ p1 p2, phaseAfter strict a (some p) before = some p1
      ∧ Phase.next strict p1 c = some p2
      ∧ phaseAfter strict a (some p2) after = some q := by
  rw [phaseAfter_append, phaseAfter_cons] at h
  cases h1 : phaseAfter strict a (some p) before with
  | none =>
    rw [h1] at h
    simp only [ite_true, Option.none_bind, phaseAfter_none] at h
    cases h
  | some p1 =>
    rw [h1] at h
    simp only [ite_true, Option.some_bind] at h
    cases h2 : Phase.next strict p1 c with
    | none =>
      rw [h2, phaseAfter_none] at h
      cases h
    | some p2 =>
      rw [h2] at h
      exact ⟨p1, p2, rfl, h2, h⟩

/-- A component that is in the phase `created` has received `create`, unless
it started there. -/
theorem create_of_created (strict : Bool) (a : Nat) (trace : List Event) (p : Phase)
    (h : phaseAfter strict a (some p) trace = some Phase.created) :
    p = Phase.created ∨ (p = Phase.uncreated ∧ ⟨Call.create, a⟩ ∈ trace) := by
  induction trace generalizing p with
  | nil =>
    left
    exact Option.some.inj h
  | cons e rest ih =>
    rw [phaseAfter_cons] at h
    obtain ⟨c, t⟩ := e
    by_cases ht : t = a
    · subst ht
      simp only [ite_true, Option.some_bind] at h
      cases hn : Phase.next strict p c with
      | none => rw [hn, phaseAfter_none] at h; cases h
      | some p' =>
        rw [hn] at h
        have from_rest := ih p' h
        rcases Phase.next_cases hn with ⟨rfl, rfl, rfl⟩ | ⟨rfl, rfl, rfl⟩ | ⟨rfl, rfl⟩
          | ⟨rfl, rfl⟩ | ⟨rfl, rfl, _⟩ <;>
          simp_all
    · simp only [ht, ite_false] at h
      rcases ih p h with h1 | ⟨h1, h2⟩
      · exact Or.inl h1
      · exact Or.inr ⟨h1, List.mem_cons_of_mem _ h2⟩

/-- A component that is in the phase `initialized` has received `init`, and
`create` as well if it started uncreated, unless it started initialised. -/
theorem init_of_initialized (strict : Bool) (a : Nat) (trace : List Event) (p : Phase)
    (h : phaseAfter strict a (some p) trace = some Phase.initialized) :
    p = Phase.initialized
      ∨ (⟨Call.init, a⟩ ∈ trace
          ∧ (p = Phase.created ∨ (p = Phase.uncreated ∧ ⟨Call.create, a⟩ ∈ trace))) := by
  induction trace generalizing p with
  | nil =>
    left
    exact Option.some.inj h
  | cons e rest ih =>
    rw [phaseAfter_cons] at h
    obtain ⟨c, t⟩ := e
    by_cases ht : t = a
    · subst ht
      simp only [ite_true, Option.some_bind] at h
      cases hn : Phase.next strict p c with
      | none => rw [hn, phaseAfter_none] at h; cases h
      | some p' =>
        rw [hn] at h
        have from_rest := ih p' h
        rcases Phase.next_cases hn with ⟨rfl, rfl, rfl⟩ | ⟨rfl, rfl, rfl⟩ | ⟨rfl, rfl⟩
          | ⟨rfl, rfl⟩ | ⟨rfl, rfl, _⟩ <;>
          simp_all
    · simp only [ht, ite_false] at h
      rcases ih p h with h1 | ⟨h1, h2 | ⟨h2, h3⟩⟩
      · exact Or.inl h1
      · exact Or.inr ⟨List.mem_cons_of_mem _ h1, Or.inl h2⟩
      · exact Or.inr ⟨List.mem_cons_of_mem _ h1, Or.inr ⟨h2, List.mem_cons_of_mem _ h3⟩⟩

/-- After `destroy` a lifecycle that is not broken has no `create` and no
`init`. -/
theorem no_bring_up_of_destroyed (strict : Bool) (a : Nat) (trace : List Event) (q : Phase)
    (h : phaseAfter strict a (some Phase.destroyed) trace = some q) :
    ⟨Call.create, a⟩ ∉ trace ∧ ⟨Call.init, a⟩ ∉ trace := by
  induction trace with
  | nil => simp
  | cons e rest ih =>
    rw [phaseAfter_cons] at h
    obtain ⟨c, t⟩ := e
    by_cases ht : t = a
    · subst ht
      simp only [ite_true, Option.some_bind] at h
      cases hn : Phase.next strict Phase.destroyed c with
      | none => rw [hn, phaseAfter_none] at h; cases h
      | some p' =>
        rw [hn] at h
        rcases Phase.next_cases hn with ⟨_, hp, _⟩ | ⟨_, hp, _⟩ | ⟨rfl, rfl⟩
          | ⟨rfl, rfl⟩ | ⟨rfl, rfl, _⟩
        · cases hp
        · cases hp
        · simpa using ih h
        · simpa using ih h
        · simpa using ih h
    · simp only [ht, ite_false] at h
      have from_rest := ih h
      have ne1 : ¬ (Event.mk Call.create a = Event.mk c t) := by
        intro heq
        exact ht (congrArg Event.target heq).symm
      have ne2 : ¬ (Event.mk Call.init a = Event.mk c t) := by
        intro heq
        exact ht (congrArg Event.target heq).symm
      simp [List.mem_cons, ne1, ne2, from_rest]

/-- What a lifecycle that is not broken means for the trace: at most one
`create`, at most one `init`, `create` before `init`, neither of them after
`destroy`; and, when `update` is held to initialised components, `create` and
`init` before every `update`. -/
theorem lifecycle_of_phaseAfter (strict : Bool) (a : Nat) (trace : List Event) (q : Phase)
    (h : phaseAfter strict a (some Phase.uncreated) trace = some q) :
    trace.count ⟨Call.create, a⟩ ≤ 1
      ∧ trace.count ⟨Call.init, a⟩ ≤ 1
      ∧ (∀ before after, trace = before ++ ⟨Call.init, a⟩ :: after →
          ⟨Call.create, a⟩ ∈ before)
      ∧ (∀ before after, trace = before ++ ⟨Call.destroy, a⟩ :: after →
          ⟨Call.create, a⟩ ∉ after ∧ ⟨Call.init, a⟩ ∉ after)
      ∧ (strict = true → ∀ before after, trace = before ++ ⟨Call.update, a⟩ :: after →
          ⟨Call.create, a⟩ ∈ before ∧ ⟨Call.init, a⟩ ∈ before) := by
  refine ⟨?_, ?_, ?_, ?_, ?_⟩
  · simpa using count_create_le strict a trace Phase.uncreated q h
  · simpa using count_init_le strict a trace Phase.uncreated q h
  · intro before after cut
    rw [cut] at h
    obtain ⟨p1, p2, h1, h2, _⟩ := phaseAfter_split strict a _ q _ before after h
    rcases Phase.next_cases h2 with ⟨hc, _, _⟩ | ⟨_, rfl, _⟩ | ⟨hc, _⟩ | ⟨hc, _⟩ | ⟨hc, _⟩
    · cases hc
    · rcases create_of_created strict a before _ h1 with hp | ⟨_, hmem⟩
      · cases hp
      · exact hmem
    · cases hc
    · cases hc
    · cases hc
  · intro before after cut
    rw [cut] at h
    obtain ⟨p1, p2, _, h2, h3⟩ := phaseAfter_split strict a _ q _ before after h
    rw [Phase.next_destroy] at h2
    cases h2
    exact no_bring_up_of_destroyed strict a after q h3
  · intro held before after cut
    rw [cut] at h
    obtain ⟨p1, p2, h1, h2, _⟩ := phaseAfter_split strict a _ q _ before after h
    rcases Phase.next_cases h2 with ⟨hc, _, _⟩ | ⟨hc, _, _⟩ | ⟨hc, _⟩ | ⟨hc, _⟩
      | ⟨_, _, hp⟩
    · cases hc
    · cases hc
    · cases hc
    · cases hc
    · have hp1 := hp held
      subst hp1
      rcases init_of_initialized strict a before _ h1 with hp | ⟨hi, hp | ⟨_, hcr⟩⟩
      · cases hp
      · cases hp
      · exact ⟨hcr, hi⟩

/-! ## Runs keep the lifecycle of every component -/

namespace World

/-- A new object with no call made is sound. -/
theorem sound_fresh (strict : Bool) (_name : String) (uuid : Nat) :
    Sound strict (fresh _name uuid) where
  childless := rfl
  distinct := List.nodup_nil
  attached_owned := by
    intro a ha
    simp [fresh, GameObject.named, GameObject.ownComponents, GameObject._m_hComponents] at ha
  unowned := fun _ _ => rfl
  attached := by
    intro a ha
    simp [fresh, GameObject.named, GameObject.ownComponents, GameObject._m_hComponents] at ha
  unbroken := fun _ => ⟨Phase.uncreated, rfl⟩

/-- `init()` keeps a world sound. -/
theorem sound_after_init (strict : Bool) (w : World) (h : Sound strict w) :
    Sound strict (w.after w.object.init) := by
  obtain ⟨g, owned, deleted, trace⟩ := w
  obtain ⟨childless, distinct, attached_owned, unowned, attached, unbroken⟩ := h
  cases g with
  | mk n ch cs td ini sc u =>
    cases ini
    · simp only [GameObject.ownComponents, GameObject._m_hComponents,
        GameObject._m_isInitialized, GameObject._m_hChildren, Bool.false_eq_true,
        ite_false] at childless distinct attached_owned unowned attached unbroken
      have moved : ∀ a, a ∈ cs.map (fun e => e.2.addr) →
          phaseAfter strict a (some Phase.uncreated)
            (trace ++ (GameObject.forEachComponent Call.create cs
              ++ GameObject.forEachComponent Call.init cs)) = some Phase.initialized := by
        intro a ha
        rw [phaseAfter_append, attached a ha, phaseAfter_append,
          phaseAfter_forEach_of_mem strict a _ Call.create cs distinct ha,
          phaseAfter_forEach_of_mem strict a _ Call.init cs distinct ha]
        rfl
      have stayed : ∀ a, a ∉ cs.map (fun e => e.2.addr) →
          phaseAfter strict a (some Phase.uncreated)
            (trace ++ (GameObject.forEachComponent Call.create cs
              ++ GameObject.forEachComponent Call.init cs))
            = phaseAfter strict a (some Phase.uncreated) trace := by
        intro a ha
        rw [phaseAfter_append, phaseAfter_append,
          phaseAfter_forEach_of_not_mem strict a _ Call.create cs ha,
          phaseAfter_forEach_of_not_mem strict a _ Call.init cs ha]
      refine ⟨childless, distinct, attached_owned, ?_, ?_, ?_⟩
      · intro a ha
        have hnot : a ∉ cs.map (fun e => e.2.addr) := fun hin => ha (attached_owned a hin)
        exact (stayed a hnot).trans (unowned a ha)
      · intro a ha
        exact moved a ha
      · intro a
        by_cases ha : a ∈ cs.map (fun e => e.2.addr)
        · exact ⟨_, moved a ha⟩
        · obtain ⟨q, hq⟩ := unbroken a
          exact ⟨q, (stayed a ha).trans hq⟩
    · refine ⟨childless, distinct, attached_owned, ?_, ?_, ?_⟩
      · intro a ha
        simpa [after, GameObject.init] using unowned a ha
      · intro a ha
        simpa [after, GameObject.init] using attached a ha
      · intro a
        simpa [after, GameObject.init] using unbroken a

/-- `update()` keeps a world sound; when `update` is held to initialised
components, provided the object is initialised. -/
theorem sound_after_update (strict : Bool) (w : World) (h : Sound strict w)
    (inTime : strict = true → w.object._m_isInitialized = true) :
    Sound strict (w.after w.object.update) := by
  obtain ⟨childless, distinct, attached_owned, unowned, attached, unbroken⟩ := h
  have moved : ∀ a, a ∈ w.object.ownComponents →
      phaseAfter strict a (some Phase.uncreated)
        (w.trace ++ GameObject.forEachComponent Call.update w.object._m_hComponents)
        = phaseAfter strict a (some Phase.uncreated) w.trace := by
    intro a ha
    rw [phaseAfter_append, attached a ha,
      phaseAfter_forEach_of_mem strict a _ Call.update _ distinct ha]
    cases strict
    · cases w.object._m_isInitialized <;> rfl
    · rw [inTime rfl]
      rfl
  have stayed : ∀ a, a ∉ w.object.ownComponents →
      phaseAfter strict a (some Phase.uncreated)
        (w.trace ++ GameObject.forEachComponent Call.update w.object._m_hComponents)
        = phaseAfter strict a (some Phase.uncreated) w.trace := by
    intro a ha
    rw [phaseAfter_append, phaseAfter_forEach_of_not_mem strict a _ Call.update _ ha]
  have same : ∀ a, phaseAfter strict a (some Phase.uncreated)
        (w.trace ++ GameObject.forEachComponent Call.update w.object._m_hComponents)
        = phaseAfter strict a (some Phase.uncreated) w.trace := by
    intro a
    by_cases ha : a ∈ w.object.ownComponents
    · exact moved a ha
    · exact stayed a ha
  refine ⟨childless, distinct, attached_owned, ?_, ?_, ?_⟩
  · intro a ha
    exact (same a).trans (unowned a ha)
  · intro a ha
    exact (same a).trans (attached a ha)
  · intro a
    obtain ⟨q, hq⟩ := unbroken a
    exact ⟨q, (same a).trans hq⟩

/-- `destroy()` keeps a world sound. -/
theorem sound_after_destroy (strict : Bool) (w : World) (h : Sound strict w) :
    Sound strict (w.after w.object.destroy) := by
  obtain ⟨g, owned, deleted, trace⟩ := w
  obtain ⟨childless, distinct, attached_owned, unowned, attached, unbroken⟩ := h
  cases g with
  | mk n ch cs td ini sc u =>
    simp only [GameObject._m_hChildren] at childless
    subst childless
    simp only [GameObject.ownComponents, GameObject._m_hComponents] at attached_owned
    have ran : (GameObject.mk n [] cs td ini sc u).destroy
        = ⟨GameObject.mk n [] [] td ini sc u,
            GameObject.teardown (cs.map (fun e => e.2.addr))⟩ := by
      simp [GameObject.destroy, GameObject.destroyChildren, GameObject.destroyComponents_eq,
        Map.clear]
    simp only [after, ran]
    refine ⟨rfl, List.nodup_nil, ?_, ?_, ?_, ?_⟩
    · intro a ha
      simp [GameObject.ownComponents, GameObject._m_hComponents] at ha
    · intro a ha
      have hnot : a ∉ cs.map (fun e => e.2.addr) := fun hin => ha (attached_owned a hin)
      show phaseAfter strict a _ (trace ++ _) = _
      rw [phaseAfter_append, unowned a ha, phaseAfter_teardown]
      simp only [hnot, ite_false]
    · intro a ha
      simp [GameObject.ownComponents, GameObject._m_hComponents] at ha
    · intro a
      obtain ⟨q, hq⟩ := unbroken a
      show ∃ q, phaseAfter strict a _ (trace ++ _) = some q
      simp only at hq
      rw [phaseAfter_append, hq, phaseAfter_teardown]
      exact ⟨_, rfl⟩

end World

namespace Map

variable {κ ν : Type}

/-- An entry that `find` returns is in the map. -/
theorem mem_of_find [DecidableEq κ] (m : Map κ ν) (k : κ) (v : ν)
    (h : find m k = some v) : (k, v) ∈ m := by
  induction m with
  | nil => simp [find] at h
  | cons e rest ih =>
    by_cases hk : e.1 = k
    · simp only [find, hk, ite_true, Option.some.injEq] at h
      have he : e = (k, v) := Prod.ext hk h
      rw [he]
      exact List.mem_cons_self _ _
    · simp only [find, hk, ite_false] at h
      exact List.mem_cons_of_mem _ (ih h)

/-- After `insert` of a key that was absent the map has the new entry and the
old ones. -/
theorem insert_perm [DecidableEq κ] [Less κ] (m : Map κ ν) (k : κ) (v : ν)
    (absent : find m k = none) : List.Perm (insert m k v) ((k, v) :: m) := by
  induction m with
  | nil => exact List.Perm.refl _
  | cons e rest ih =>
    by_cases hk : e.1 = k
    · simp [find, hk] at absent
    · have hrest : find rest k = none := by simpa [find, hk] using absent
      by_cases hl : Less.less k e.1 = true
      · simp only [insert, hk, ite_false, hl, ite_true]
        exact List.Perm.refl _
      · simp only [insert, hk, ite_false, hl]
        exact ((ih hrest).cons e).trans (List.Perm.swap _ _ _)

end Map

namespace World

/-- `detroyComponent` keeps a world sound. -/
theorem sound_after_detroyComponent (strict : Bool) (w : World) (t : eCOMPONENT)
    (h : Sound strict w) : Sound strict (w.after (w.object.detroyComponent t)) := by
  obtain ⟨g, owned, deleted, trace⟩ := w
  obtain ⟨childless, distinct, attached_owned, unowned, attached, unbroken⟩ := h
  cases g with
  | mk n ch cs td ini sc u =>
    simp only [GameObject.ownComponents, GameObject._m_hComponents,
      GameObject._m_isInitialized, GameObject._m_hChildren]
      at childless distinct attached_owned unowned attached unbroken
    cases hfind : Map.find cs t with
    | none =>
      have ran : (GameObject.mk n ch cs td ini sc u).detroyComponent t
          = ⟨GameObject.mk n ch cs td ini sc u, []⟩ := by
        simp [GameObject.detroyComponent, GameObject.hasComponent, GameObject._m_hComponents,
          hfind]
      simp only [after, ran, List.append_nil]
      exact ⟨childless, distinct, attached_owned, unowned, attached, unbroken⟩
    | some c =>
      have ran : (GameObject.mk n ch cs td ini sc u).detroyComponent t
          = ⟨GameObject.mk n ch (Map.erase cs t) td ini sc u,
              GameObject.teardown [c.addr]⟩ := by
        simp [GameObject.detroyComponent, GameObject.hasComponent, GameObject._m_hComponents,
          hfind, GameObject.teardown]
      have hmem : (t, c) ∈ cs := Map.mem_of_find cs t c hfind
      have sub : List.Sublist ((Map.erase cs t).map (fun e => e.2.addr))
          (cs.map (fun e => e.2.addr)) :=
        List.Sublist.map _ (List.filter_sublist cs)
      have gone : c.addr ∉ (Map.erase cs t).map (fun e => e.2.addr) := by
        intro hin
        obtain ⟨e, he, heq⟩ := List.mem_map.mp hin
        unfold Map.erase at he
        rw [List.mem_filter] at he
        obtain ⟨hecs, hkey⟩ := he
        have same : e = (t, c) := List.inj_on_of_nodup_map distinct hecs hmem heq
        rw [same] at hkey
        simp at hkey
      have other : ∀ a, a ≠ c.addr → ∀ q : Phase,
          phaseAfter strict a (some q) (GameObject.teardown [c.addr]) = some q := by
        intro a ha q
        rw [phaseAfter_teardown]
        simp [ha]
      simp only [after, ran]
      refine ⟨childless, distinct.sublist sub, ?_, ?_, ?_, ?_⟩
      · intro a ha
        exact attached_owned a (sub.subset ha)
      · intro a ha
        have hne : a ≠ c.addr := by
          intro heq
          exact ha (attached_owned a (heq ▸ List.mem_map.mpr ⟨(t, c), hmem, rfl⟩))
        show phaseAfter strict a _ (trace ++ _) = _
        rw [phaseAfter_append, unowned a ha, other a hne]
      · intro a ha
        have hne : a ≠ c.addr := fun heq => gone (heq ▸ ha)
        show phaseAfter strict a _ (trace ++ _) = _
        rw [phaseAfter_append, attached a (sub.subset ha), other a hne]
        rfl
      · intro a
        obtain ⟨q, hq⟩ := unbroken a
        show ∃ q, phaseAfter strict a _ (trace ++ _) = some q
        rw [phaseAfter_append, hq, phaseAfter_teardown]
        exact ⟨_, rfl⟩

/-- `addComponent` keeps a world sound, whether it throws or not. -/
theorem sound_after_addComponent (strict : Bool) (w : World) (p : Nat) (type : eCOMPONENT)
    (h : Sound strict w) :
    Sound strict
      ⟨(w.object.addComponent (w.pointee p type)).self,
        if (w.object.addComponent (w.pointee p type)).component._m_pGameObject = none
          then w.owned else p :: w.owned,
        w.deleted,
        w.trace ++ (w.object.addComponent (w.pointee p type)).trace⟩ := by
  obtain ⟨g, owned, deleted, trace⟩ := w
  obtain ⟨childless, distinct, attached_owned, unowned, attached, unbroken⟩ := h
  cases g with
  | mk n ch cs td ini sc u =>
    simp only [GameObject.ownComponents, GameObject._m_hComponents,
      GameObject._m_isInitialized, GameObject._m_hChildren]
      at childless distinct attached_owned unowned attached unbroken
    simp only [pointee, GameObject._m_uuid]
    by_cases hown : p ∈ owned
    · have ran : (GameObject.mk n ch cs td ini sc u).addComponent ⟨p, type, some u⟩
          = ⟨((GameObject.mk n ch cs td ini sc u).addComponent ⟨p, type, some u⟩).thrown,
              GameObject.mk n ch cs td ini sc u, ⟨p, type, some u⟩, []⟩ := by
        by_cases hhas : (GameObject.mk n ch cs td ini sc u).hasComponent type = true
        · simp [GameObject.addComponent, hhas]
        · simp [GameObject.addComponent, hhas]
      simp only [hown, ite_true]
      rw [ran]
      simp only [List.append_nil]
      refine ⟨childless, distinct, ?_, ?_, attached, unbroken⟩
      · intro a ha
        simpa using Or.inr (attached_owned a ha)
      · intro a ha
        have hnot : a ∉ owned := by
          intro hin
          exact ha (by simpa using Or.inr hin)
        exact unowned a hnot
    · simp only [hown, ite_false]
      by_cases hhas : (GameObject.mk n ch cs td ini sc u).hasComponent type = true
      · have ran : (GameObject.mk n ch cs td ini sc u).addComponent ⟨p, type, none⟩
            = ⟨((GameObject.mk n ch cs td ini sc u).addComponent ⟨p, type, none⟩).thrown,
                GameObject.mk n ch cs td ini sc u, ⟨p, type, none⟩, []⟩ := by
          simp [GameObject.addComponent, hhas]
        rw [ran]
        simp only [List.append_nil, ite_true]
        exact ⟨childless, distinct, attached_owned, unowned, attached, unbroken⟩
      · have none_found : Map.find cs type = none := by
          simpa [GameObject.hasComponent, GameObject._m_hComponents] using hhas
        have ran : (GameObject.mk n ch cs td ini sc u).addComponent ⟨p, type, none⟩
            = ⟨none, GameObject.mk n ch (Map.insert cs type ⟨p, type, some u⟩) td ini sc u,
                ⟨p, type, some u⟩,
                if ini = true then [⟨Call.create, p⟩, ⟨Call.init, p⟩] else []⟩ := by
          cases ini <;> simp [GameObject.addComponent, hhas]
        have perm : List.Perm
            ((Map.insert cs type (⟨p, type, some u⟩ : Component)).map (fun e => e.2.addr))
            (p :: cs.map (fun e => e.2.addr)) :=
          (Map.insert_perm cs type (⟨p, type, some u⟩ : Component) none_found).map _
        have fresh_p : p ∉ cs.map (fun e => e.2.addr) := fun hin => hown (attached_owned p hin)
        have other : ∀ a, a ≠ p → ∀ start : Option Phase,
            phaseAfter strict a start
              (if ini = true then [⟨Call.create, p⟩, ⟨Call.init, p⟩] else []) = start := by
          intro a ha start
          apply phaseAfter_of_no_target
          intro e he
          cases ini
          · simp at he
          · simp only [ite_true, List.mem_cons, List.mem_singleton, List.not_mem_nil,
              or_false] at he
            rcases he with rfl | rfl <;> exact fun heq => ha heq.symm
        have mine : phaseAfter strict p (some Phase.uncreated)
            (trace ++ (if ini = true then [⟨Call.create, p⟩, ⟨Call.init, p⟩] else []))
            = some (if ini = true then Phase.initialized else Phase.uncreated) := by
          rw [phaseAfter_append, unowned p hown]
          cases ini
          · rfl
          · simp [phaseAfter, Phase.next]
        rw [ran]
        simp only [reduceCtorEq, ite_false]
        refine ⟨childless, ?_, ?_, ?_, ?_, ?_⟩
        · show ((Map.insert cs type (⟨p, type, some u⟩ : Component)).map
            (fun e => e.2.addr)).Nodup
          rw [perm.nodup_iff]
          exact List.nodup_cons.mpr ⟨fresh_p, distinct⟩
        · intro a ha
          have ha2 : a ∈ p :: cs.map (fun e => e.2.addr) := perm.mem_iff.mp ha
          rcases List.mem_cons.mp ha2 with rfl | hin
          · exact List.mem_cons_self _ _
          · exact List.mem_cons_of_mem _ (attached_owned a hin)
        · intro a ha
          have hne : a ≠ p := fun heq => ha (heq ▸ List.mem_cons_self _ _)
          have hnot : a ∉ owned := fun hin => ha (List.mem_cons_of_mem _ hin)
          show phaseAfter strict a _ (trace ++ _) = _
          rw [phaseAfter_append, other a hne, unowned a hnot]
        · intro a ha
          have ha2 : a ∈ p :: cs.map (fun e => e.2.addr) := perm.mem_iff.mp ha
          rcases List.mem_cons.mp ha2 with rfl | hin
          · exact mine
          · have hne : a ≠ p := fun heq => fresh_p (heq ▸ hin)
            show phaseAfter strict a _ (trace ++ _) = _
            rw [phaseAfter_append, other a hne]
            exact attached a hin
        · intro a
          by_cases hap : a = p
          · subst hap
            exact ⟨_, mine⟩
          · obtain ⟨q, hq⟩ := unbroken a
            refine ⟨q, ?_⟩
            show phaseAfter strict a _ (trace ++ _) = _
            rw [phaseAfter_append, other a hap]
            exact hq

/-- One operation keeps a world sound; when `update` is held to initialised
components, provided `update()` is called on an initialised object only. -/
theorem sound_step (strict : Bool) (w w' : World) (op : Operation) (h : Sound strict w)
    (ran : w.step op = some w') (inTime : strict = true → w.timely op = true) :
    Sound strict w' := by
  cases op with
  | addComponent p type =>
    simp only [step] at ran
    split at ran
    · cases ran
    · cases ran
      exact sound_after_addComponent strict w p type h
  | init =>
    cases ran
    exact sound_after_init strict w h
  | update =>
    cases ran
    exact sound_after_update strict w h inTime
  | detroyComponent t =>
    cases ran
    exact sound_after_detroyComponent strict w t h
  | destroy =>
    cases ran
    exact sound_after_destroy strict w h

/-- A run keeps a world sound; when `update` is held to initialised components,
provided every `update()` of the run is called while the object is
initialised. -/
theorem sound_run (strict : Bool) (ops : List Operation) (w : World) (h : Sound strict w)
    (inTime : strict = true → w.updatesWhenInitialized ops = true) :
    Sound strict (w.run ops) := by
  induction ops generalizing w with
  | nil => exact h
  | cons op rest ih =>
    simp only [run]
    cases hstep : w.step op with
    | none => exact h
    | some w' =>
      simp only
      refine ih w' (sound_step strict w w' op h hstep ?_) ?_
      · intro hs
        have t := inTime hs
        simp only [updatesWhenInitialized, Bool.and_eq_true] at t
        exact t.1
      · intro hs
        have t := inTime hs
        simp only [updatesWhenInitialized, Bool.and_eq_true, hstep] at t
        exact t.2

end World

/-- C21: in every sequence of `addComponent`, `init`, `update`,
`detroyComponent` and `destroy` on a newly constructed object, the components
unowned at the start, each component receives `create` at most once and `init`
at most once, receives `init` only after a `create`, and receives neither
`create` nor `init` after its `destroy`. -/
theorem lifecycle_create_before_init (_name : String) (uuid : Nat) (ops : List Operation)
    (a : Nat) :
    ((World.fresh _name uuid).run ops).trace.count ⟨Call.create, a⟩ ≤ 1
      ∧ ((World.fresh _name uuid).run ops).trace.count ⟨Call.init, a⟩ ≤ 1
      ∧ (∀ before after,
          ((World.fresh _name uuid).run ops).trace = before ++ ⟨Call.init, a⟩ :: after →
          ⟨Call.create, a⟩ ∈ before)
      ∧ (∀ before after,
          ((World.fresh _name uuid).run ops).trace = before ++ ⟨Call.destroy, a⟩ :: after →
          ⟨Call.create, a⟩ ∉ after ∧ ⟨Call.init, a⟩ ∉ after) := by
  have sound := World.sound_run false ops (World.fresh _name uuid)
    (World.sound_fresh false _name uuid) (fun hs => by cases hs)
  obtain ⟨q, hq⟩ := sound.unbroken a
  have facts := lifecycle_of_phaseAfter false a _ q hq
  exact ⟨facts.1, facts.2.1, facts.2.2.1, facts.2.2.2.1⟩

/-- Witness of C21: the sample run, seen from the component at address 100. -/
theorem lifecycle_create_before_init_witness :
    ((World.fresh "player" 1).run sampleRun).trace
        = [⟨Call.create, 100⟩, ⟨Call.create, 101⟩, ⟨Call.init, 100⟩, ⟨Call.init, 101⟩,
            ⟨Call.update, 100⟩, ⟨Call.update, 101⟩, ⟨Call.create, 102⟩, ⟨Call.init, 102⟩,
            ⟨Call.destroy, 100⟩, ⟨Call.delete, 100⟩, ⟨Call.destroy, 101⟩,
            ⟨Call.delete, 101⟩, ⟨Call.destroy, 102⟩, ⟨Call.delete, 102⟩]
      ∧ ((World.fresh "player" 1).run sampleRun).trace.count ⟨Call.create, 100⟩ ≤ 1
      ∧ (⟨Call.create, 100⟩ : Event) ∈ [⟨Call.create, 100⟩, ⟨Call.create, 101⟩]
      ∧ (⟨Call.init, 100⟩ : Event) ∉ [⟨Call.delete, 100⟩, ⟨Call.destroy, 101⟩,
            ⟨Call.delete, 101⟩, ⟨Call.destroy, 102⟩, ⟨Call.delete, 102⟩] :=
  have h := lifecycle_create_before_init "player" 1 sampleRun 100
  ⟨by decide, h.1,
    h.2.2.1 [⟨Call.create, 100⟩, ⟨Call.create, 101⟩]
      [⟨Call.init, 101⟩, ⟨Call.update, 100⟩, ⟨Call.update, 101⟩, ⟨Call.create, 102⟩,
        ⟨Call.init, 102⟩, ⟨Call.destroy, 100⟩, ⟨Call.delete, 100⟩, ⟨Call.destroy, 101⟩,
        ⟨Call.delete, 101⟩, ⟨Call.destroy, 102⟩, ⟨Call.delete, 102⟩] (by decide),
    (h.2.2.2 [⟨Call.create, 100⟩, ⟨Call.create, 101⟩, ⟨Call.init, 100⟩, ⟨Call.init, 101⟩,
        ⟨Call.update, 100⟩, ⟨Call.update, 101⟩, ⟨Call.create, 102⟩, ⟨Call.init, 102⟩]
      [⟨Call.delete, 100⟩, ⟨Call.destroy, 101⟩, ⟨Call.delete, 101⟩, ⟨Call.destroy, 102⟩,
        ⟨Call.delete, 102⟩] (by decide)).2⟩

/-- C22, as stated, fails: `update()` has no test of `_m_isInitialized`. On an
object that is not initialised it calls `update` on every attached component,
and a component attached to a new object receives `update` with no `create`
and no `init` before it. -/
theorem update_uninitialized_counterexample :
    sampleObject._m_isInitialized = false
      ∧ sampleObject.update.trace = [⟨Call.update, 100⟩, ⟨Call.update, 101⟩]
      ∧ ((World.fresh "player" 1).run sampleEarlyUpdate).object._m_isInitialized = false
      ∧ ((World.fresh "player" 1).run sampleEarlyUpdate).trace = [⟨Call.update, 100⟩] := by
  decide

/-- C22, amended: `update()` calls `update` on every attached component whether
the object is initialised or not; and in every sequence of operations on a
newly constructed object in which `update()` is called only while the object
is initialised, a component receives `update` only after it has received
`create` and `init`. -/
theorem update_after_bring_up (_name : String) (uuid : Nat) (ops : List Operation)
    (a : Nat) (inTime : (World.fresh _name uuid).updatesWhenInitialized ops = true) :
    (∀ g : GameObject, g.update.trace.map Event.target = g.ownComponents
        ∧ ∀ e ∈ g.update.trace, e.call = Call.update)
      ∧ (∀ before after,
          ((World.fresh _name uuid).run ops).trace = before ++ ⟨Call.update, a⟩ :: after →
          ⟨Call.create, a⟩ ∈ before ∧ ⟨Call.init, a⟩ ∈ before) := by
  constructor
  · intro g
    constructor
    · simp [GameObject.update, GameObject.forEachComponent, GameObject.ownComponents]
    · intro e he
      simp only [GameObject.update, GameObject.forEachComponent, List.mem_map] at he
      obtain ⟨x, _, rfl⟩ := he
      rfl
  · have sound := World.sound_run true ops (World.fresh _name uuid)
      (World.sound_fresh true _name uuid) (fun _ => inTime)
    obtain ⟨q, hq⟩ := sound.unbroken a
    exact (lifecycle_of_phaseAfter true a _ q hq).2.2.2.2 rfl

/-- Witness of C22 as amended: the sample run, in which `update()` comes after
`init()`, seen from the component at address 100. -/
theorem update_after_bring_up_witness :
    (World.fresh "player" 1).updatesWhenInitialized sampleRun = true
      ∧ (⟨Call.create, 100⟩ : Event)
          ∈ [⟨Call.create, 100⟩, ⟨Call.create, 101⟩, ⟨Call.init, 100⟩, ⟨Call.init, 101⟩]
      ∧ (⟨Call.init, 100⟩ : Event)
          ∈ [⟨Call.create, 100⟩, ⟨Call.create, 101⟩, ⟨Call.init, 100⟩, ⟨Call.init, 101⟩] :=
  have h := (update_after_bring_up "player" 1 sampleRun 100 (by decide)).2
    [⟨Call.create, 100⟩, ⟨Call.create, 101⟩, ⟨Call.init, 100⟩, ⟨Call.init, 101⟩]
    [⟨Call.update, 101⟩, ⟨Call.create, 102⟩, ⟨Call.init, 102⟩, ⟨Call.destroy, 100⟩,
      ⟨Call.delete, 100⟩, ⟨Call.destroy, 101⟩, ⟨Call.delete, 101⟩, ⟨Call.destroy, 102⟩,
      ⟨Call.delete, 102⟩] (by decide)
  ⟨by decide, h.1, h.2⟩

end hk
